import Mathlib

/-
Verification of the middleware dispatch engine of the wx-echo request client.

The embedding below follows the Interceptor class of src/unnamed/part_005:
the recursive dispatch loop of execute (lines 55 to 89), the error path
handleError (lines 98 to 125) and the static compose operation (lines 133
to 149), together with the request orchestration of the Echo class in
src/unnamed/part_004 (request and its inner executeRequest, lines 284 to 341).

Thrown values, contexts, middleware behaviours and error-handler behaviours
are deep embedded as first-order data so that every run of the engine is a
computable Lean term; the dispatch algorithm itself is translated statement
by statement from the source.  Each run also produces an instrumentation
trace recording, in execution order, the pre-next portion of a middleware
(enter), its post-next portion (exit), an originating throw (mwThrow) and
every invocation of an error handler together with the argument it received
and the value of the error field of the context at that moment (handlerCall).
-/

namespace WxEcho

/-- Thrown JavaScript values: a plain Error carrying a message, as produced
by the expression creating an Error from a string, or any other opaque
thrown value, identified by a number. -/
inductive Err where
  | error (msg : String)
  | value (n : Nat)
deriving DecidableEq

/-- Context record threaded through one execution, with the three fields the
dispatcher reads and writes (src/src/types.ts, BreezeContext): error starts
undefined, errorHandled starts undefined (all checks in the source compare
with true, so a Bool starting false is faithful), response starts undefined.
Responses are modelled as numbers. -/
structure Ctx where
  error : Option Err := none
  errorHandled : Bool := false
  response : Option Nat := none
deriving DecidableEq

/-- Instrumentation events emitted by a run. -/
inductive Event where
  | enter (tag : Nat)
  | exit (tag : Nat)
  | mwThrow (tag : Nat) (e : Err)
  | handlerCall (idx : Nat) (arg : Err) (ctxError : Option Err)
deriving DecidableEq

/-- Deep-embedded behaviours of a regular middleware function (ctx, next).
Each behaviour is a faithful asynchronous middleware body:
normal awaits next once and runs a post portion; throwPre throws before
calling next; throwPost awaits next and then throws; noNext short-circuits,
optionally setting the response; catchThenThrow awaits next, swallows a
rejection of next and throws its own error instead; callNextTwice awaits
next twice; respAfterNext awaits next and then assigns the response (the
terminal step the Echo orchestrator supplies). -/
inductive MW where
  | normal (tag : Nat)
  | throwPre (tag : Nat) (e : Err)
  | throwPost (tag : Nat) (e : Err)
  | noNext (tag : Nat) (resp : Option Nat)
  | catchThenThrow (tag : Nat) (e : Err)
  | callNextTwice (tag : Nat)
  | respAfterNext (tag : Nat) (v : Nat)
deriving DecidableEq

/-- Deep-embedded behaviours of an error handler function (err, ctx):
pass returns normally touching nothing; handle sets errorHandled to true,
optionally sets a recovery response, and returns normally; throwErr throws;
handleThenThrow sets errorHandled to true and then throws. -/
inductive EH where
  | pass
  | handle (resp : Option Nat)
  | throwErr (e : Err)
  | handleThenThrow (e : Err)
deriving DecidableEq

/-- Mutable state of one execute call: the cursor named index in the source
(initialised to -1, line 56) and the shared context. -/
structure DState where
  index : Int
  ctx : Ctx
deriving DecidableEq

instance {α β : Type} [DecidableEq α] [DecidableEq β] : DecidableEq (Except α β) :=
  fun a b =>
  match a, b with
  | Except.ok x, Except.ok y =>
    match decEq x y with
    | isTrue h => isTrue (by rw [h])
    | isFalse h => isFalse (fun hh => h (by cases hh; rfl))
  | Except.ok _, Except.error _ => isFalse (fun h => by cases h)
  | Except.error _, Except.ok _ => isFalse (fun h => by cases h)
  | Except.error x, Except.error y =>
    match decEq x y with
    | isTrue h => isTrue (by rw [h])
    | isFalse h => isFalse (fun hh => h (by cases hh; rfl))

/-- Result of one asynchronous step: the state after it, a normal return or
a rejection, and the instrumentation events it emitted, in order. -/
structure DOut where
  st : DState
  res : Except Err Unit
  tr : List Event
deriving DecidableEq

/-- Error thrown by dispatch on a re-entrant next call (part_005 line 66):
a plain Error whose message is the only thing identifying it. -/
def reentrantError : Err := Err.error "next() called multiple times"

/-- Loop over the error handlers (part_005 lines 108 to 119).  The first
argument is the err parameter of handleError: the source passes this same
value to every handler in the loop (line 110).  Each handler call is logged
with its position, that argument, and the error field of the context at the
moment of the call.  A handler returning normally is followed by the break
check on errorHandled (line 112); a throwing handler has its thrown value
stored into the error field (line 117) and the loop continues without the
break check. -/
def runHandlers (err0 : Err) : List EH → Nat → Ctx → Ctx × List Event
  | [], _, ctx => (ctx, [])
  | h :: rest, j, ctx =>
    let ev := Event.handlerCall j err0 ctx.error
    match h with
    | EH.pass =>
      if ctx.errorHandled then (ctx, [ev])
      else
        let r := runHandlers err0 rest (j + 1) ctx
        (r.1, ev :: r.2)
    | EH.handle resp =>
      let ctx1 : Ctx :=
        { ctx with errorHandled := true,
                   response := match resp with
                               | some v => some v
                               | none => ctx.response }
      (ctx1, [ev])
    | EH.throwErr e =>
      let r := runHandlers err0 rest (j + 1) { ctx with error := some e }
      (r.1, ev :: r.2)
    | EH.handleThenThrow e =>
      let r := runHandlers err0 rest (j + 1)
                 { ctx with errorHandled := true, error := some e }
      (r.1, ev :: r.2)

/-- Error path of the dispatcher (part_005 lines 98 to 125): store the error
in the context unconditionally (line 100); rethrow it when no handler is
registered (lines 103 to 105); otherwise run the handler loop and, when the
error was not marked handled, rethrow the current error field (lines 122 to
124).  The result is the context, a normal return or a rejection, and the
logged handler calls. -/
def handleError (hs : List EH) (err : Err) (ctx : Ctx) :
    Ctx × Except Err Unit × List Event :=
  let ctx1 : Ctx := { ctx with error := some err }
  match hs with
  | [] => (ctx1, Except.error err, [])
  | _ :: _ =>
    let r := runHandlers err hs 0 ctx1
    if r.1.errorHandled then (r.1, Except.ok (), r.2)
    else (r.1, Except.error (r.1.error.getD err), r.2)

/-- Per-frame catch of dispatch (part_005 lines 75 to 79): a normal return
of the middleware is returned as is; a rejection is delegated to the error
path of this frame, whose outcome becomes the outcome of the frame. -/
def frameCatch (hs : List EH) (body : DOut) : DOut :=
  match body.res with
  | Except.ok _ => body
  | Except.error e =>
    let h := handleError hs e body.st.ctx
    ⟨⟨body.st.index, h.1⟩, h.2.1, body.tr ++ h.2.2⟩

/-- Recursive dispatch step (part_005 lines 64 to 80).  The first argument
is the list of middleware from position i on (the source reads the shared
middleware array at position i; within one execute call the array is fixed,
so the suffix determines the lookup).  The guard against a re-entrant next
call compares i with the cursor (lines 65 to 67) before the cursor advances
to i (line 69); a missing entry returns normally (line 73); otherwise the
entry runs with a next continuation dispatching position i plus one, under
the per-frame catch. -/
def dispatch (hs : List EH) : List MW → Nat → DState → DOut
  | rest, i, st =>
    if (i : Int) ≤ st.index then
      ⟨st, Except.error reentrantError, []⟩
    else
      let st1 : DState := ⟨(i : Int), st.ctx⟩
      match rest with
      | [] => ⟨st1, Except.ok (), []⟩
      | mw :: tail =>
        let body : DOut :=
          match mw with
          | MW.normal tag =>
            let d := dispatch hs tail (i + 1) st1
            match d.res with
            | Except.ok _ =>
              ⟨d.st, Except.ok (), Event.enter tag :: (d.tr ++ [Event.exit tag])⟩
            | Except.error e => ⟨d.st, Except.error e, Event.enter tag :: d.tr⟩
          | MW.throwPre tag e =>
            ⟨st1, Except.error e, [Event.enter tag, Event.mwThrow tag e]⟩
          | MW.throwPost tag e =>
            let d := dispatch hs tail (i + 1) st1
            match d.res with
            | Except.ok _ =>
              ⟨d.st, Except.error e, Event.enter tag :: (d.tr ++ [Event.mwThrow tag e])⟩
            | Except.error e1 => ⟨d.st, Except.error e1, Event.enter tag :: d.tr⟩
          | MW.noNext tag resp =>
            let ctx1 : Ctx :=
              { st1.ctx with response := match resp with
                                         | some v => some v
                                         | none => st1.ctx.response }
            ⟨⟨st1.index, ctx1⟩, Except.ok (), [Event.enter tag]⟩
          | MW.catchThenThrow tag e =>
            let d := dispatch hs tail (i + 1) st1
            match d.res with
            | Except.ok _ =>
              ⟨d.st, Except.ok (), Event.enter tag :: (d.tr ++ [Event.exit tag])⟩
            | Except.error _ =>
              ⟨d.st, Except.error e, Event.enter tag :: (d.tr ++ [Event.mwThrow tag e])⟩
          | MW.callNextTwice tag =>
            let d1 := dispatch hs tail (i + 1) st1
            match d1.res with
            | Except.error e => ⟨d1.st, Except.error e, Event.enter tag :: d1.tr⟩
            | Except.ok _ =>
              let d2 := dispatch hs tail (i + 1) d1.st
              match d2.res with
              | Except.error e =>
                ⟨d2.st, Except.error e, Event.enter tag :: (d1.tr ++ d2.tr)⟩
              | Except.ok _ =>
                ⟨d2.st, Except.ok (),
                 Event.enter tag :: (d1.tr ++ d2.tr ++ [Event.exit tag])⟩
          | MW.respAfterNext tag v =>
            let d := dispatch hs tail (i + 1) st1
            match d.res with
            | Except.ok _ =>
              ⟨⟨d.st.index, { d.st.ctx with response := some v }⟩, Except.ok (),
               Event.enter tag :: d.tr⟩
            | Except.error e => ⟨d.st, Except.error e, Event.enter tag :: d.tr⟩
        frameCatch hs body

/-- Outcome of one execute call: the final context, a normal return or a
rejection, and the full instrumentation trace. -/
structure ExecResult where
  ctx : Ctx
  outcome : Except Err Unit
  trace : List Event
deriving DecidableEq

/-- Top level of execute (part_005 lines 55 to 89): run dispatch from
position zero with the cursor at -1; a rejection escaping dispatch is
offered once more to the error path (lines 82 to 86); on a normal return
the mutated context is returned (line 88). -/
def execute (mws : List MW) (hs : List EH) (ctx0 : Ctx) : ExecResult :=
  let d := dispatch hs mws 0 ⟨(-1 : Int), ctx0⟩
  match d.res with
  | Except.ok _ => ⟨d.st.ctx, Except.ok (), d.tr⟩
  | Except.error e =>
    let h := handleError hs e d.st.ctx
    ⟨h.1, h.2.1, d.tr ++ h.2.2⟩

/-- Modelled from the spec: the two-argument execute(context, terminal) that
the Echo orchestrator (src/unnamed/part_004 line 310) and the tests call is
not among the sources; only the one-argument Interceptor of part_005 is.
Spec section 4.1 step 2 states that the terminal is invoked like a regular
entry when the position equals the length of the regular list, receiving a
next that dispatches the following position, where nothing remains; this is
exactly a run over the regular list with the terminal appended. -/
def executeWith (mws : List MW) (hs : List EH) (terminal : MW) (ctx0 : Ctx) :
    ExecResult :=
  execute (mws ++ [terminal]) hs ctx0

/-- Default context of a bare execute call (part_005 line 55, an empty
object: every field undefined). -/
def emptyCtx : Ctx := {}

/-- Fresh context the orchestrator builds per request (part_004 lines 302
to 306: error and response explicitly undefined). -/
def initCtx : Ctx := {}

/-- Result of the transport the orchestrator awaits inside its terminal
step: a response payload or a transport failure. -/
inductive Transport where
  | ok (v : Nat)
  | fail (e : Err)
deriving DecidableEq

/-- Terminal step supplied by Echo.request (part_004 lines 310 to 313):
await next, then assign the awaited transport result to the response field;
a transport failure propagates out of the terminal. -/
def echoTerminal : Transport → MW
  | Transport.ok v => MW.respAfterNext 1000 v
  | Transport.fail e => MW.throwPost 1000 e

/-- Catch block of executeRequest (part_004 lines 319 to 327): record the
caught value as the error of the context when none is recorded yet; rethrow
the recorded error when it is not marked handled; otherwise resolve with
whatever the response field holds. -/
def requestCatch (ctx : Ctx) (err : Err) : Except Err (Option Nat) × Ctx :=
  let ctx1 : Ctx := if ctx.error.isNone then { ctx with error := some err } else ctx
  if ctx1.errorHandled then (Except.ok ctx1.response, ctx1)
  else (Except.error (ctx1.error.getD err), ctx1)

/-- Inner executeRequest of Echo.request (part_004 lines 308 to 328): run
the pipeline with the transport terminal; on a normal return, a recorded
but unhandled error is thrown and lands in the catch block of the same
function (the truthiness test on the error field holds exactly when an
error value is recorded, all modelled thrown values being truthy);
otherwise resolve with the response.  The returned promise settles exactly
as this function does (lines 330 to 334). -/
def executeRequest (mws : List MW) (hs : List EH) (t : Transport) (ctx0 : Ctx) :
    Except Err (Option Nat) × Ctx :=
  let r := executeWith mws hs (echoTerminal t) ctx0
  match r.outcome with
  | Except.error e => requestCatch r.ctx e
  | Except.ok _ =>
    if r.ctx.error.isSome && !r.ctx.errorHandled then
      requestCatch r.ctx (r.ctx.error.getD reentrantError)
    else (Except.ok r.ctx.response, r.ctx)

/-- Interceptor instance state (part_005 lines 14 to 27): the two ordered
lists of registered functions. -/
structure Interceptor where
  middleware : List MW := []
  errorHandlers : List EH := []
deriving DecidableEq

/-- Registration of a regular middleware (part_005 lines 34 to 37): push to
the end of the middleware list. -/
def Interceptor.use (it : Interceptor) (fn : MW) : Interceptor :=
  { it with middleware := it.middleware ++ [fn] }

/-- Registration of an error handler (part_005 lines 44 to 47): push to the
end of the error handler list. -/
def Interceptor.catchFn (it : Interceptor) (fn : EH) : Interceptor :=
  { it with errorHandlers := it.errorHandlers ++ [fn] }

/-- Static composition (part_005 lines 133 to 149): starting from a fresh
instance, walk the inputs in order and re-register every regular middleware
and every error handler of each input on the composed instance. -/
def Interceptor.compose (its : List Interceptor) : Interceptor :=
  its.foldl
    (fun acc it =>
      let acc1 := it.middleware.foldl (fun a fn => a.use fn) acc
      it.errorHandlers.foldl (fun a fn => a.catchFn fn) acc1)
    {}

/-- Number of occurrences of an event in a trace. -/
def countEvent (ev : Event) : List Event → Nat
  | [] => 0
  | x :: xs => (if x = ev then 1 else 0) + countEvent ev xs

/-- Whether a handler behaviour itself throws. -/
def EH.throwsOwn : EH → Bool
  | EH.throwErr _ => true
  | EH.handleThenThrow _ => true
  | _ => false

theorem frameCatch_of_ok (hs : List EH) (body : DOut) (h : body.res = Except.ok ()) :
    frameCatch hs body = body := by
  unfold frameCatch
  rw [h]

theorem frameCatch_of_err (hs : List EH) (body : DOut) (e : Err)
    (h : body.res = Except.error e) :
    frameCatch hs body =
      ⟨⟨body.st.index, (handleError hs e body.st.ctx).1⟩,
       (handleError hs e body.st.ctx).2.1,
       body.tr ++ (handleError hs e body.st.ctx).2.2⟩ := by
  unfold frameCatch
  rw [h]

theorem dispatch_guard_le (hs : List EH) (rest : List MW) (i : Nat) (st : DState)
    (h : (i : Int) ≤ st.index) :
    dispatch hs rest i st = ⟨st, Except.error reentrantError, []⟩ := by
  cases rest <;> · unfold dispatch; rw [if_pos h]

theorem dispatch_nil_mw (hs : List EH) (i : Nat) (st : DState)
    (h : ¬ (i : Int) ≤ st.index) :
    dispatch hs [] i st = ⟨⟨(i : Int), st.ctx⟩, Except.ok (), []⟩ := by
  unfold dispatch
  rw [if_neg h]

theorem dispatch_cons_normal (hs : List EH) (tag : Nat) (tail : List MW) (i : Nat)
    (st : DState) (h : ¬ (i : Int) ≤ st.index) :
    dispatch hs (MW.normal tag :: tail) i st =
      frameCatch hs
        (match (dispatch hs tail (i + 1) ⟨(i : Int), st.ctx⟩).res with
         | Except.ok _ =>
           ⟨(dispatch hs tail (i + 1) ⟨(i : Int), st.ctx⟩).st, Except.ok (),
            Event.enter tag ::
              ((dispatch hs tail (i + 1) ⟨(i : Int), st.ctx⟩).tr ++ [Event.exit tag])⟩
         | Except.error e =>
           ⟨(dispatch hs tail (i + 1) ⟨(i : Int), st.ctx⟩).st, Except.error e,
            Event.enter tag :: (dispatch hs tail (i + 1) ⟨(i : Int), st.ctx⟩).tr⟩) := by
  conv_lhs => unfold dispatch
  rw [if_neg h]

theorem dispatch_cons_throwPre (hs : List EH) (tag : Nat) (e : Err) (tail : List MW)
    (i : Nat) (st : DState) (h : ¬ (i : Int) ≤ st.index) :
    dispatch hs (MW.throwPre tag e :: tail) i st =
      frameCatch hs
        ⟨⟨(i : Int), st.ctx⟩, Except.error e, [Event.enter tag, Event.mwThrow tag e]⟩ := by
  conv_lhs => unfold dispatch
  rw [if_neg h]

theorem dispatch_cons_throwPost (hs : List EH) (tag : Nat) (e : Err) (tail : List MW)
    (i : Nat) (st : DState) (h : ¬ (i : Int) ≤ st.index) :
    dispatch hs (MW.throwPost tag e :: tail) i st =
      frameCatch hs
        (match (dispatch hs tail (i + 1) ⟨(i : Int), st.ctx⟩).res with
         | Except.ok _ =>
           ⟨(dispatch hs tail (i + 1) ⟨(i : Int), st.ctx⟩).st, Except.error e,
            Event.enter tag ::
              ((dispatch hs tail (i + 1) ⟨(i : Int), st.ctx⟩).tr ++ [Event.mwThrow tag e])⟩
         | Except.error e1 =>
           ⟨(dispatch hs tail (i + 1) ⟨(i : Int), st.ctx⟩).st, Except.error e1,
            Event.enter tag :: (dispatch hs tail (i + 1) ⟨(i : Int), st.ctx⟩).tr⟩) := by
  conv_lhs => unfold dispatch
  rw [if_neg h]

theorem dispatch_cons_noNext (hs : List EH) (tag : Nat) (resp : Option Nat)
    (tail : List MW) (i : Nat) (st : DState) (h : ¬ (i : Int) ≤ st.index) :
    dispatch hs (MW.noNext tag resp :: tail) i st =
      frameCatch hs
        ⟨⟨(i : Int), { st.ctx with response := match resp with
                                               | some v => some v
                                               | none => st.ctx.response }⟩,
         Except.ok (), [Event.enter tag]⟩ := by
  conv_lhs => unfold dispatch
  rw [if_neg h]

theorem dispatch_cons_catchThenThrow (hs : List EH) (tag : Nat) (e : Err)
    (tail : List MW) (i : Nat) (st : DState) (h : ¬ (i : Int) ≤ st.index) :
    dispatch hs (MW.catchThenThrow tag e :: tail) i st =
      frameCatch hs
        (match (dispatch hs tail (i + 1) ⟨(i : Int), st.ctx⟩).res with
         | Except.ok _ =>
           ⟨(dispatch hs tail (i + 1) ⟨(i : Int), st.ctx⟩).st, Except.ok (),
            Event.enter tag ::
              ((dispatch hs tail (i + 1) ⟨(i : Int), st.ctx⟩).tr ++ [Event.exit tag])⟩
         | Except.error _ =>
           ⟨(dispatch hs tail (i + 1) ⟨(i : Int), st.ctx⟩).st, Except.error e,
            Event.enter tag ::
              ((dispatch hs tail (i + 1) ⟨(i : Int), st.ctx⟩).tr ++ [Event.mwThrow tag e])⟩) := by
  conv_lhs => unfold dispatch
  rw [if_neg h]

theorem dispatch_cons_callNextTwice (hs : List EH) (tag : Nat) (tail : List MW)
    (i : Nat) (st : DState) (h : ¬ (i : Int) ≤ st.index) :
    dispatch hs (MW.callNextTwice tag :: tail) i st =
      frameCatch hs
        (match (dispatch hs tail (i + 1) ⟨(i : Int), st.ctx⟩).res with
         | Except.error e =>
           ⟨(dispatch hs tail (i + 1) ⟨(i : Int), st.ctx⟩).st, Except.error e,
            Event.enter tag :: (dispatch hs tail (i + 1) ⟨(i : Int), st.ctx⟩).tr⟩
         | Except.ok _ =>
           match (dispatch hs tail (i + 1) (dispatch hs tail (i + 1) ⟨(i : Int), st.ctx⟩).st).res with
           | Except.error e =>
             ⟨(dispatch hs tail (i + 1) (dispatch hs tail (i + 1) ⟨(i : Int), st.ctx⟩).st).st,
              Except.error e,
              Event.enter tag ::
                ((dispatch hs tail (i + 1) ⟨(i : Int), st.ctx⟩).tr ++
                  (dispatch hs tail (i + 1) (dispatch hs tail (i + 1) ⟨(i : Int), st.ctx⟩).st).tr)⟩
           | Except.ok _ =>
             ⟨(dispatch hs tail (i + 1) (dispatch hs tail (i + 1) ⟨(i : Int), st.ctx⟩).st).st,
              Except.ok (),
              Event.enter tag ::
                ((dispatch hs tail (i + 1) ⟨(i : Int), st.ctx⟩).tr ++
                  (dispatch hs tail (i + 1) (dispatch hs tail (i + 1) ⟨(i : Int), st.ctx⟩).st).tr ++
                  [Event.exit tag])⟩) := by
  conv_lhs => unfold dispatch
  rw [if_neg h]

theorem dispatch_cons_respAfterNext (hs : List EH) (tag : Nat) (v : Nat)
    (tail : List MW) (i : Nat) (st : DState) (h : ¬ (i : Int) ≤ st.index) :
    dispatch hs (MW.respAfterNext tag v :: tail) i st =
      frameCatch hs
        (match (dispatch hs tail (i + 1) ⟨(i : Int), st.ctx⟩).res with
         | Except.ok _ =>
           ⟨⟨(dispatch hs tail (i + 1) ⟨(i : Int), st.ctx⟩).st.index,
             { (dispatch hs tail (i + 1) ⟨(i : Int), st.ctx⟩).st.ctx with response := some v }⟩,
            Except.ok (),
            Event.enter tag :: (dispatch hs tail (i + 1) ⟨(i : Int), st.ctx⟩).tr⟩
         | Except.error e =>
           ⟨(dispatch hs tail (i + 1) ⟨(i : Int), st.ctx⟩).st, Except.error e,
            Event.enter tag :: (dispatch hs tail (i + 1) ⟨(i : Int), st.ctx⟩).tr⟩) := by
  conv_lhs => unfold dispatch
  rw [if_neg h]

theorem runHandlers_error_isSome (e : Err) (l : List EH) (j : Nat) (ctx : Ctx)
    (h : ctx.error.isSome = true) :
    ((runHandlers e l j ctx).1.error).isSome = true := by
  induction l generalizing j ctx with
  | nil => simpa [runHandlers] using h
  | cons hd tl ih =>
    cases hd with
    | pass =>
      by_cases hb : ctx.errorHandled
      · simpa [runHandlers, hb] using h
      · simpa [runHandlers, hb] using ih (j + 1) ctx h
    | handle resp => simpa [runHandlers] using h
    | throwErr e1 => simpa [runHandlers] using ih (j + 1) _ (by simp)
    | handleThenThrow e1 => simpa [runHandlers] using ih (j + 1) _ (by simp)

theorem runHandlers_handled_true (e : Err) (l : List EH) (j : Nat) (ctx : Ctx)
    (h : ctx.errorHandled = true) :
    (runHandlers e l j ctx).1.errorHandled = true := by
  induction l generalizing j ctx with
  | nil => simpa [runHandlers] using h
  | cons hd tl ih =>
    cases hd with
    | pass => simp [runHandlers, h]
    | handle resp => simp [runHandlers]
    | throwErr e1 => simpa [runHandlers] using ih (j + 1) _ (by simp [h])
    | handleThenThrow e1 => simpa [runHandlers] using ih (j + 1) _ (by simp)

theorem runHandlers_head (e : Err) (hd : EH) (tl : List EH) (j : Nat) (ctx : Ctx) :
    ∃ t, (runHandlers e (hd :: tl) j ctx).2 = Event.handlerCall j e ctx.error :: t := by
  cases hd with
  | pass =>
    by_cases hb : ctx.errorHandled
    · exact ⟨[], by simp [runHandlers, hb]⟩
    · exact ⟨(runHandlers e tl (j + 1) ctx).2, by simp [runHandlers, hb]⟩
  | handle resp => exact ⟨[], by simp [runHandlers]⟩
  | throwErr e1 =>
    exact ⟨(runHandlers e tl (j + 1) { ctx with error := some e1 }).2,
      by simp [runHandlers]⟩
  | handleThenThrow e1 =>
    exact ⟨(runHandlers e tl (j + 1) { ctx with errorHandled := true, error := some e1 }).2,
      by simp [runHandlers]⟩

theorem runHandlers_arg_eq (e : Err) (l : List EH) (j : Nat) (ctx : Ctx) (ev : Event)
    (h : ev ∈ (runHandlers e l j ctx).2) :
    ∃ k oe, ev = Event.handlerCall k e oe := by
  induction l generalizing j ctx with
  | nil => simp [runHandlers] at h
  | cons hd tl ih =>
    cases hd with
    | pass =>
      by_cases hb : ctx.errorHandled
      · simp [runHandlers, hb] at h
        exact ⟨j, ctx.error, h⟩
      · simp [runHandlers, hb] at h
        rcases h with h | h
        · exact ⟨j, ctx.error, h⟩
        · exact ih (j + 1) ctx h
    | handle resp =>
      simp [runHandlers] at h
      exact ⟨j, ctx.error, h⟩
    | throwErr e1 =>
      simp [runHandlers] at h
      rcases h with h | h
      · exact ⟨j, ctx.error, h⟩
      · exact ih (j + 1) _ h
    | handleThenThrow e1 =>
      simp [runHandlers] at h
      rcases h with h | h
      · exact ⟨j, ctx.error, h⟩
      · exact ih (j + 1) _ h

theorem runHandlers_all_called (e : Err) (l : List EH) (j : Nat) (ctx : Ctx)
    (h : (runHandlers e l j ctx).1.errorHandled = false) :
    ∀ k, k < l.length → ∃ oe, Event.handlerCall (j + k) e oe ∈ (runHandlers e l j ctx).2 := by
  induction l generalizing j ctx with
  | nil => intro k hk; simp at hk
  | cons hd tl ih =>
    intro k hk
    cases hd with
    | pass =>
      by_cases hb : ctx.errorHandled
      · rw [show (runHandlers e (EH.pass :: tl) j ctx) = (ctx, [Event.handlerCall j e ctx.error]) from by simp [runHandlers, hb]] at h
        simp [hb] at h
      · have hre : runHandlers e (EH.pass :: tl) j ctx =
            ((runHandlers e tl (j + 1) ctx).1,
              Event.handlerCall j e ctx.error :: (runHandlers e tl (j + 1) ctx).2) := by
          simp [runHandlers, hb]
        rw [hre] at h ⊢
        rcases Nat.eq_zero_or_pos k with rfl | hkpos
        · exact ⟨ctx.error, by simp⟩
        · obtain ⟨oe, hoe⟩ := ih (j + 1) ctx h (k - 1) (by simp at hk; omega)
          exact ⟨oe, by
            simp only [List.mem_cons]
            right
            have : j + 1 + (k - 1) = j + k := by omega
            rwa [this] at hoe⟩
    | handle resp =>
      simp [runHandlers] at h
    | throwErr e1 =>
      simp only [runHandlers] at h ⊢
      rcases Nat.eq_zero_or_pos k with rfl | hkpos
      · exact ⟨ctx.error, by simp⟩
      · obtain ⟨oe, hoe⟩ := ih (j + 1) _ h (k - 1) (by simp at hk; omega)
        exact ⟨oe, by
          simp only [List.mem_cons]
          right
          have : j + 1 + (k - 1) = j + k := by omega
          rwa [this] at hoe⟩
    | handleThenThrow e1 =>
      have := runHandlers_handled_true e tl (j + 1)
        { ctx with errorHandled := true, error := some e1 } (by simp)
      simp only [runHandlers] at h
      rw [this] at h
      cases h

theorem runHandlers_at (e : Err) (l : List EH) (j : Nat) (ctx : Ctx) :
    (runHandlers e l j ctx).2.length ≤ l.length ∧
      ∀ m, m < (runHandlers e l j ctx).2.length →
        ∃ oe, (runHandlers e l j ctx).2[m]? = some (Event.handlerCall (j + m) e oe) := by
  induction l generalizing j ctx with
  | nil => simp [runHandlers]
  | cons hd tl ih =>
    have step : ∀ (ctx1 : Ctx),
        ((Event.handlerCall j e ctx.error :: (runHandlers e tl (j + 1) ctx1).2).length ≤
            (hd :: tl).length ∧
          ∀ m, m < (Event.handlerCall j e ctx.error :: (runHandlers e tl (j + 1) ctx1).2).length →
            ∃ oe, (Event.handlerCall j e ctx.error :: (runHandlers e tl (j + 1) ctx1).2)[m]? =
              some (Event.handlerCall (j + m) e oe)) := by
      intro ctx1
      obtain ⟨h1, h2⟩ := ih (j + 1) ctx1
      refine ⟨by simpa using h1, ?_⟩
      intro m hm
      rcases Nat.eq_zero_or_pos m with rfl | hmpos
      · exact ⟨ctx.error, by simp⟩
      · obtain ⟨oe, hoe⟩ := h2 (m - 1) (by simp at hm; omega)
        refine ⟨oe, ?_⟩
        rw [show m = (m - 1) + 1 from by omega]
        simpa [show j + 1 + (m - 1) = j + ((m - 1) + 1) from by omega] using hoe
    cases hd with
    | pass =>
      by_cases hb : ctx.errorHandled
      · refine ⟨by simp [runHandlers, hb], ?_⟩
        intro m hm
        simp [runHandlers, hb] at hm
        subst hm
        exact ⟨ctx.error, by simp [runHandlers, hb]⟩
      · simpa only [runHandlers, hb, if_false] using step ctx
    | handle resp =>
      refine ⟨by simp [runHandlers], ?_⟩
      intro m hm
      simp [runHandlers] at hm
      subst hm
      exact ⟨ctx.error, by simp [runHandlers]⟩
    | throwErr e1 => simpa only [runHandlers] using step _
    | handleThenThrow e1 => simpa only [runHandlers] using step _

theorem runHandlers_handle_stops (e : Err) (l : List EH) (j k : Nat) (ctx : Ctx)
    (resp : Option Nat) (hk : l[k]? = some (EH.handle resp))
    (hin : ∃ oe, Event.handlerCall (j + k) e oe ∈ (runHandlers e l j ctx).2) :
    (runHandlers e l j ctx).2.length = k + 1 := by
  induction l generalizing j k ctx with
  | nil => simp at hk
  | cons hd tl ih =>
    have hstep : ∀ (ctx1 : Ctx), 0 < k → tl[k - 1]? = some (EH.handle resp) →
        (∃ oe, Event.handlerCall (j + k) e oe ∈
          Event.handlerCall j e ctx.error :: (runHandlers e tl (j + 1) ctx1).2) →
        (Event.handlerCall j e ctx.error :: (runHandlers e tl (j + 1) ctx1).2).length =
          k + 1 := by
      intro ctx1 hkpos hk1 hin1
      obtain ⟨oe, hoe⟩ := hin1
      simp only [List.mem_cons] at hoe
      rcases hoe with hoe | hoe
      · injection hoe with h1 h2 h3
        omega
      · have htl := ih (j + 1) (k - 1) ctx1 hk1
          ⟨oe, by rwa [show j + 1 + (k - 1) = j + k from by omega]⟩
        simp only [List.length_cons, htl]
        omega
    have hk_tail : 0 < k → tl[k - 1]? = some (EH.handle resp) := by
      intro hkpos
      rw [show k = (k - 1) + 1 from by omega, List.getElem?_cons_succ] at hk
      exact hk
    cases hd with
    | pass =>
      by_cases hb : ctx.errorHandled
      · have hre : runHandlers e (EH.pass :: tl) j ctx =
            (ctx, [Event.handlerCall j e ctx.error]) := by simp [runHandlers, hb]
        rw [hre] at hin ⊢
        obtain ⟨oe, hoe⟩ := hin
        simp only [List.mem_cons, List.not_mem_nil, or_false] at hoe
        injection hoe with h1 h2 h3
        have hk0 : k = 0 := by omega
        subst hk0
        simp at hk
      · have hre : runHandlers e (EH.pass :: tl) j ctx =
            ((runHandlers e tl (j + 1) ctx).1,
              Event.handlerCall j e ctx.error :: (runHandlers e tl (j + 1) ctx).2) := by
          simp [runHandlers, hb]
        rw [hre] at hin ⊢
        rcases Nat.eq_zero_or_pos k with rfl | hkpos
        · simp at hk
        · exact hstep ctx hkpos (hk_tail hkpos) hin
    | handle r0 =>
      rcases Nat.eq_zero_or_pos k with rfl | hkpos
      · simp [runHandlers]
      · exfalso
        obtain ⟨oe, hoe⟩ := hin
        simp only [runHandlers, List.mem_cons, List.not_mem_nil, or_false] at hoe
        injection hoe with h1 h2 h3
        omega
    | throwErr e1 =>
      have hre : runHandlers e (EH.throwErr e1 :: tl) j ctx =
          ((runHandlers e tl (j + 1) { ctx with error := some e1 }).1,
            Event.handlerCall j e ctx.error ::
              (runHandlers e tl (j + 1) { ctx with error := some e1 }).2) := by
        simp [runHandlers]
      rw [hre] at hin ⊢
      rcases Nat.eq_zero_or_pos k with rfl | hkpos
      · simp at hk
      · exact hstep _ hkpos (hk_tail hkpos) hin
    | handleThenThrow e1 =>
      have hre : runHandlers e (EH.handleThenThrow e1 :: tl) j ctx =
          ((runHandlers e tl (j + 1)
              { ctx with errorHandled := true, error := some e1 }).1,
            Event.handlerCall j e ctx.error ::
              (runHandlers e tl (j + 1)
                { ctx with errorHandled := true, error := some e1 }).2) := by
        simp [runHandlers]
      rw [hre] at hin ⊢
      rcases Nat.eq_zero_or_pos k with rfl | hkpos
      · simp at hk
      · exact hstep _ hkpos (hk_tail hkpos) hin
theorem runHandlers_throw_continue (e e1 : Err) (l : List EH) (j k : Nat) (ctx : Ctx)
    (hk : l[k]? = some (EH.throwErr e1))
    (hin : ∃ oe, Event.handlerCall (j + k) e oe ∈ (runHandlers e l j ctx).2)
    (hlt : k + 1 < l.length) :
    Event.handlerCall (j + k + 1) e (some e1) ∈ (runHandlers e l j ctx).2 := by
  induction l generalizing j k ctx with
  | nil => simp at hk
  | cons hd tl ih =>
    have hstep : ∀ (ctx1 : Ctx), 0 < k →
        (∃ oe, Event.handlerCall (j + k) e oe ∈
          Event.handlerCall j e ctx.error :: (runHandlers e tl (j + 1) ctx1).2) →
        tl[k - 1]? = some (EH.throwErr e1) → k < tl.length →
        Event.handlerCall (j + k + 1) e (some e1) ∈
          Event.handlerCall j e ctx.error :: (runHandlers e tl (j + 1) ctx1).2 := by
      intro ctx1 hkpos hin1 hk1 hlt1
      obtain ⟨oe, hoe⟩ := hin1
      simp only [List.mem_cons] at hoe
      rcases hoe with hoe | hoe
      · injection hoe with h1 h2 h3
        omega
      · have := ih (j + 1) (k - 1) ctx1 hk1
          ⟨oe, by rwa [show j + 1 + (k - 1) = j + k from by omega]⟩ (by omega)
        simp only [List.mem_cons]
        right
        rwa [show j + 1 + (k - 1) + 1 = j + k + 1 from by omega] at this
    have hk_tail : 0 < k → tl[k - 1]? = some (EH.throwErr e1) := by
      intro hkpos
      rw [show k = (k - 1) + 1 from by omega, List.getElem?_cons_succ] at hk
      exact hk
    cases hd with
    | pass =>
      by_cases hb : ctx.errorHandled
      · exfalso
        have hre : runHandlers e (EH.pass :: tl) j ctx =
            (ctx, [Event.handlerCall j e ctx.error]) := by simp [runHandlers, hb]
        rw [hre] at hin
        obtain ⟨oe, hoe⟩ := hin
        simp only [List.mem_cons, List.not_mem_nil, or_false] at hoe
        injection hoe with h1 h2 h3
        have hk0 : k = 0 := by omega
        subst hk0
        simp at hk
      · have hre : runHandlers e (EH.pass :: tl) j ctx =
            ((runHandlers e tl (j + 1) ctx).1,
              Event.handlerCall j e ctx.error :: (runHandlers e tl (j + 1) ctx).2) := by
          simp [runHandlers, hb]
        rw [hre] at hin ⊢
        rcases Nat.eq_zero_or_pos k with rfl | hkpos
        · simp at hk
        · exact hstep ctx hkpos hin (hk_tail hkpos) (by simp at hlt; omega)
    | handle r0 =>
      exfalso
      obtain ⟨oe, hoe⟩ := hin
      simp only [runHandlers, List.mem_cons, List.not_mem_nil, or_false] at hoe
      injection hoe with h1 h2 h3
      have hk0 : k = 0 := by omega
      subst hk0
      simp at hk
    | throwErr e2 =>
      have hre : runHandlers e (EH.throwErr e2 :: tl) j ctx =
          ((runHandlers e tl (j + 1) { ctx with error := some e2 }).1,
            Event.handlerCall j e ctx.error ::
              (runHandlers e tl (j + 1) { ctx with error := some e2 }).2) := by
        simp [runHandlers]
      rw [hre] at hin ⊢
      rcases Nat.eq_zero_or_pos k with rfl | hkpos
      · have he2 : e2 = e1 := by simpa using hk
        subst he2
        have hne : tl ≠ [] := by
          intro hnil
          subst hnil
          simp at hlt
        obtain ⟨h2, t2, rfl⟩ := List.exists_cons_of_ne_nil hne
        obtain ⟨t3, ht3⟩ := runHandlers_head e h2 t2 (j + 1) { ctx with error := some e2 }
        simp only [List.mem_cons]
        right
        rw [ht3]
        simp
      · exact hstep _ hkpos hin (hk_tail hkpos) (by simp at hlt; omega)
    | handleThenThrow e2 =>
      have hre : runHandlers e (EH.handleThenThrow e2 :: tl) j ctx =
          ((runHandlers e tl (j + 1)
              { ctx with errorHandled := true, error := some e2 }).1,
            Event.handlerCall j e ctx.error ::
              (runHandlers e tl (j + 1)
                { ctx with errorHandled := true, error := some e2 }).2) := by
        simp [runHandlers]
      rw [hre] at hin ⊢
      rcases Nat.eq_zero_or_pos k with rfl | hkpos
      · simp at hk
      · exact hstep _ hkpos hin (hk_tail hkpos) (by simp at hlt; omega)

theorem runHandlers_no_throw_error (e : Err) (l : List EH) (j : Nat) (ctx : Ctx)
    (h : ∀ hd ∈ l, hd = EH.pass ∨ ∃ r, hd = EH.handle r) :
    (runHandlers e l j ctx).1.error = ctx.error := by
  induction l generalizing j ctx with
  | nil => simp [runHandlers]
  | cons hd tl ih =>
    rcases h hd (by simp) with rfl | ⟨r, rfl⟩
    · by_cases hb : ctx.errorHandled
      · simp [runHandlers, hb]
      · simpa [runHandlers, hb] using ih (j + 1) ctx (fun x hx => h x (by simp [hx]))
    · simp [runHandlers]

theorem handleError_nil (e : Err) (ctx : Ctx) :
    handleError [] e ctx = ({ ctx with error := some e }, Except.error e, []) := rfl

theorem handleError_cons (hd : EH) (tl : List EH) (e : Err) (ctx : Ctx) :
    handleError (hd :: tl) e ctx =
      (if (runHandlers e (hd :: tl) 0 { ctx with error := some e }).1.errorHandled
       then ((runHandlers e (hd :: tl) 0 { ctx with error := some e }).1, Except.ok (),
             (runHandlers e (hd :: tl) 0 { ctx with error := some e }).2)
       else ((runHandlers e (hd :: tl) 0 { ctx with error := some e }).1,
             Except.error
               ((runHandlers e (hd :: tl) 0 { ctx with error := some e }).1.error.getD e),
             (runHandlers e (hd :: tl) 0 { ctx with error := some e }).2)) := rfl

theorem handleError_error_isSome (hs : List EH) (e : Err) (ctx : Ctx) :
    ((handleError hs e ctx).1.error).isSome = true := by
  cases hs with
  | nil => simp [handleError_nil]
  | cons hd tl =>
    have hsome := runHandlers_error_isSome e (hd :: tl) 0 { ctx with error := some e }
      (by simp)
    rw [handleError_cons]
    split <;> simpa using hsome

theorem handleError_err_ctx (hs : List EH) (e e1 : Err) (ctx : Ctx)
    (h : (handleError hs e ctx).2.1 = Except.error e1) :
    (handleError hs e ctx).1.error = some e1 := by
  cases hs with
  | nil =>
    rw [handleError_nil] at h ⊢
    simp at h
    simp [h]
  | cons hd tl =>
    have hsome := runHandlers_error_isSome e (hd :: tl) 0 { ctx with error := some e }
      (by simp)
    obtain ⟨v, hv⟩ := Option.isSome_iff_exists.mp hsome
    rw [handleError_cons] at h ⊢
    by_cases hb : (runHandlers e (hd :: tl) 0 { ctx with error := some e }).1.errorHandled
    · rw [if_pos hb] at h
      simp at h
    · rw [if_neg hb] at h ⊢
      simp only [hv] at h ⊢
      simp at h
      simp [h]

theorem handleError_err_handled (hs : List EH) (e e1 : Err) (ctx : Ctx)
    (hne : hs ≠ [])
    (h : (handleError hs e ctx).2.1 = Except.error e1) :
    (handleError hs e ctx).1.errorHandled = false := by
  cases hs with
  | nil => exact absurd rfl hne
  | cons hd tl =>
    rw [handleError_cons] at h ⊢
    split at h
    · simp at h
    · next hnb =>
      rw [if_neg hnb]
      simpa using hnb

theorem handleError_ok_handled (hs : List EH) (e : Err) (ctx : Ctx)
    (h : (handleError hs e ctx).2.1 = Except.ok ()) :
    (handleError hs e ctx).1.errorHandled = true := by
  cases hs with
  | nil =>
    rw [handleError_nil] at h
    simp at h
  | cons hd tl =>
    rw [handleError_cons] at h ⊢
    split at h
    · next hb => rw [if_pos hb]; simpa using hb
    · simp at h

theorem handleError_pass_of_unhandled (e : Err) (ctx : Ctx)
    (h : ctx.errorHandled = false) :
    handleError [EH.pass] e ctx =
      ({ ctx with error := some e }, Except.error e,
       [Event.handlerCall 0 e (some e)]) := by
  simp [handleError, runHandlers, h]

theorem frameCatch_err_ctx (hs : List EH) (body : DOut) (e : Err)
    (h : (frameCatch hs body).res = Except.error e) :
    (frameCatch hs body).st.ctx.error = some e := by
  cases hb : body.res with
  | ok u =>
    rw [frameCatch_of_ok hs body (by cases u; exact hb)] at h
    rw [hb] at h
    cases h
  | error e0 =>
    rw [frameCatch_of_err hs body e0 hb] at h ⊢
    exact handleError_err_ctx hs e0 e body.st.ctx h

theorem frameCatch_preserves (hs : List EH) (P : Ctx → Prop)
    (hhe : ∀ e c, P c → P (handleError hs e c).1) (body : DOut)
    (hP : P body.st.ctx) : P (frameCatch hs body).st.ctx := by
  cases hb : body.res with
  | ok u => rw [frameCatch_of_ok hs body (by cases u; exact hb)]; exact hP
  | error e0 => rw [frameCatch_of_err hs body e0 hb]; exact hhe e0 _ hP

theorem dispatch_index_irrel (hs : List EH) (rest : List MW) (i : Nat) (a b : Int)
    (c : Ctx) (ha : a < (i : Int)) (hb : b < (i : Int)) :
    dispatch hs rest i ⟨a, c⟩ = dispatch hs rest i ⟨b, c⟩ := by
  conv_lhs => unfold dispatch
  conv_rhs => unfold dispatch
  rw [if_neg (by simpa using Int.not_le.mpr ha), if_neg (by simpa using Int.not_le.mpr hb)]

theorem dispatch_preserves (hs : List EH) (P : Ctx → Prop)
    (hresp : ∀ c v, P c → P { c with response := v })
    (hhe : ∀ e c, P c → P (handleError hs e c).1) :
    ∀ (rest : List MW) (i : Nat) (st : DState),
      P st.ctx → P (dispatch hs rest i st).st.ctx := by
  intro rest
  induction rest with
  | nil =>
    intro i st hP
    by_cases hgd : (i : Int) ≤ st.index
    · rw [dispatch_guard_le hs [] i st hgd]; exact hP
    · rw [dispatch_nil_mw hs i st hgd]; exact hP
  | cons mw tail ih =>
    intro i st hP
    by_cases hgd : (i : Int) ≤ st.index
    · rw [dispatch_guard_le hs (mw :: tail) i st hgd]; exact hP
    · have hchild : P (dispatch hs tail (i + 1) ⟨(i : Int), st.ctx⟩).st.ctx :=
        ih (i + 1) ⟨(i : Int), st.ctx⟩ hP
      cases mw with
      | normal tag =>
        rw [dispatch_cons_normal hs tag tail i st hgd]
        refine frameCatch_preserves hs P hhe _ ?_
        cases hr : (dispatch hs tail (i + 1) ⟨(i : Int), st.ctx⟩).res <;> simp [hr, hchild]
      | throwPre tag e =>
        rw [dispatch_cons_throwPre hs tag e tail i st hgd]
        exact frameCatch_preserves hs P hhe _ hP
      | throwPost tag e =>
        rw [dispatch_cons_throwPost hs tag e tail i st hgd]
        refine frameCatch_preserves hs P hhe _ ?_
        cases hr : (dispatch hs tail (i + 1) ⟨(i : Int), st.ctx⟩).res <;> simp [hr, hchild]
      | noNext tag resp =>
        rw [dispatch_cons_noNext hs tag resp tail i st hgd]
        refine frameCatch_preserves hs P hhe _ ?_
        exact hresp _ _ hP
      | catchThenThrow tag e =>
        rw [dispatch_cons_catchThenThrow hs tag e tail i st hgd]
        refine frameCatch_preserves hs P hhe _ ?_
        cases hr : (dispatch hs tail (i + 1) ⟨(i : Int), st.ctx⟩).res <;> simp [hr, hchild]
      | callNextTwice tag =>
        rw [dispatch_cons_callNextTwice hs tag tail i st hgd]
        refine frameCatch_preserves hs P hhe _ ?_
        have hchild2 : P (dispatch hs tail (i + 1)
            (dispatch hs tail (i + 1) ⟨(i : Int), st.ctx⟩).st).st.ctx :=
          ih (i + 1) _ hchild
        cases hr : (dispatch hs tail (i + 1) ⟨(i : Int), st.ctx⟩).res with
        | error e => simp [hr, hchild]
        | ok u =>
          cases hr2 : (dispatch hs tail (i + 1)
              (dispatch hs tail (i + 1) ⟨(i : Int), st.ctx⟩).st).res <;>
            simp [hr, hr2, hchild2]
      | respAfterNext tag v =>
        rw [dispatch_cons_respAfterNext hs tag v tail i st hgd]
        refine frameCatch_preserves hs P hhe _ ?_
        cases hr : (dispatch hs tail (i + 1) ⟨(i : Int), st.ctx⟩).res <;>
          simp [hr, hchild, hresp _ _ hchild]

theorem dispatch_nil_handled (rest : List MW) (i : Nat) (st : DState) :
    (dispatch [] rest i st).st.ctx.errorHandled = st.ctx.errorHandled := by
  exact dispatch_preserves [] (fun c => c.errorHandled = st.ctx.errorHandled)
    (fun c v h => h)
    (fun e c h => by rw [handleError_nil]; exact h)
    rest i st rfl

theorem dispatch_pass_handled (rest : List MW) (i : Nat) (st : DState)
    (hh : st.ctx.errorHandled = false) :
    (dispatch [EH.pass] rest i st).st.ctx.errorHandled = false := by
  exact dispatch_preserves [EH.pass] (fun c => c.errorHandled = false)
    (fun c v h => h)
    (fun e c h => by rw [handleError_pass_of_unhandled e c h]; exact h)
    rest i st hh

theorem dispatch_error_ctx (hs : List EH) (rest : List MW) (i : Nat) (st : DState)
    (e : Err) (hgd : ¬ (i : Int) ≤ st.index)
    (h : (dispatch hs rest i st).res = Except.error e) :
    (dispatch hs rest i st).st.ctx.error = some e := by
  cases rest with
  | nil =>
    rw [dispatch_nil_mw hs i st hgd] at h
    cases h
  | cons mw tail =>
    cases mw with
    | normal tag =>
      rw [dispatch_cons_normal hs tag tail i st hgd] at h ⊢
      exact frameCatch_err_ctx hs _ e h
    | throwPre tag e1 =>
      rw [dispatch_cons_throwPre hs tag e1 tail i st hgd] at h ⊢
      exact frameCatch_err_ctx hs _ e h
    | throwPost tag e1 =>
      rw [dispatch_cons_throwPost hs tag e1 tail i st hgd] at h ⊢
      exact frameCatch_err_ctx hs _ e h
    | noNext tag resp =>
      rw [dispatch_cons_noNext hs tag resp tail i st hgd] at h ⊢
      exact frameCatch_err_ctx hs _ e h
    | catchThenThrow tag e1 =>
      rw [dispatch_cons_catchThenThrow hs tag e1 tail i st hgd] at h ⊢
      exact frameCatch_err_ctx hs _ e h
    | callNextTwice tag =>
      rw [dispatch_cons_callNextTwice hs tag tail i st hgd] at h ⊢
      exact frameCatch_err_ctx hs _ e h
    | respAfterNext tag v =>
      rw [dispatch_cons_respAfterNext hs tag v tail i st hgd] at h ⊢
      exact frameCatch_err_ctx hs _ e h

theorem frameCatch_ok_good (hs : List EH) (body : DOut)
    (hok : (frameCatch hs body).res = Except.ok ())
    (hbody : body.res = Except.ok () →
      (body.st.ctx.error.isSome = true → body.st.ctx.errorHandled = true)) :
    (frameCatch hs body).st.ctx.error.isSome = true →
      (frameCatch hs body).st.ctx.errorHandled = true := by
  cases hb : body.res with
  | ok u =>
    rw [frameCatch_of_ok hs body (by cases u; exact hb)]
    exact hbody (by cases u; exact hb)
  | error e0 =>
    rw [frameCatch_of_err hs body e0 hb] at hok ⊢
    intro _
    exact handleError_ok_handled hs e0 body.st.ctx hok

theorem dispatch_good (hs : List EH) (rest : List MW) (i : Nat) (st : DState)
    (hg : st.ctx.error.isSome = true → st.ctx.errorHandled = true)
    (hok : (dispatch hs rest i st).res = Except.ok ()) :
    (dispatch hs rest i st).st.ctx.error.isSome = true →
      (dispatch hs rest i st).st.ctx.errorHandled = true := by
  induction rest generalizing i st with
  | nil =>
    by_cases hgd : (i : Int) ≤ st.index
    · rw [dispatch_guard_le hs [] i st hgd]; exact hg
    · rw [dispatch_nil_mw hs i st hgd]; exact hg
  | cons mw tail ih =>
    by_cases hgd : (i : Int) ≤ st.index
    · rw [dispatch_guard_le hs (mw :: tail) i st hgd] at hok
      cases hok
    · cases mw with
      | normal tag =>
        rw [dispatch_cons_normal hs tag tail i st hgd] at hok ⊢
        refine frameCatch_ok_good hs _ hok ?_
        cases hr : (dispatch hs tail (i + 1) ⟨(i : Int), st.ctx⟩).res with
        | ok u =>
          intro _
          simpa using ih (i + 1) ⟨(i : Int), st.ctx⟩ hg (by cases u; exact hr)
        | error e => intro hc; simp at hc
      | throwPre tag e =>
        rw [dispatch_cons_throwPre hs tag e tail i st hgd] at hok ⊢
        refine frameCatch_ok_good hs _ hok ?_
        intro hc; simp at hc
      | throwPost tag e =>
        rw [dispatch_cons_throwPost hs tag e tail i st hgd] at hok ⊢
        refine frameCatch_ok_good hs _ hok ?_
        cases hr : (dispatch hs tail (i + 1) ⟨(i : Int), st.ctx⟩).res with
        | ok u => intro hc; simp at hc
        | error e1 => intro hc; simp at hc
      | noNext tag resp =>
        rw [dispatch_cons_noNext hs tag resp tail i st hgd] at hok ⊢
        refine frameCatch_ok_good hs _ hok ?_
        intro _
        exact hg
      | catchThenThrow tag e =>
        rw [dispatch_cons_catchThenThrow hs tag e tail i st hgd] at hok ⊢
        refine frameCatch_ok_good hs _ hok ?_
        cases hr : (dispatch hs tail (i + 1) ⟨(i : Int), st.ctx⟩).res with
        | ok u =>
          intro _
          simpa using ih (i + 1) ⟨(i : Int), st.ctx⟩ hg (by cases u; exact hr)
        | error e1 => intro hc; simp at hc
      | callNextTwice tag =>
        rw [dispatch_cons_callNextTwice hs tag tail i st hgd] at hok ⊢
        refine frameCatch_ok_good hs _ hok ?_
        cases hr : (dispatch hs tail (i + 1) ⟨(i : Int), st.ctx⟩).res with
        | error e => intro hc; simp at hc
        | ok u =>
          have hgood1 : (dispatch hs tail (i + 1) ⟨(i : Int), st.ctx⟩).st.ctx.error.isSome = true →
              (dispatch hs tail (i + 1) ⟨(i : Int), st.ctx⟩).st.ctx.errorHandled = true :=
            ih (i + 1) ⟨(i : Int), st.ctx⟩ hg (by cases u; exact hr)
          cases hr2 : (dispatch hs tail (i + 1)
              (dispatch hs tail (i + 1) ⟨(i : Int), st.ctx⟩).st).res with
          | error e => intro hc; simp at hc
          | ok u2 =>
            intro _
            simpa using ih (i + 1) _ hgood1 (by cases u2; exact hr2)
      | respAfterNext tag v =>
        rw [dispatch_cons_respAfterNext hs tag v tail i st hgd] at hok ⊢
        refine frameCatch_ok_good hs _ hok ?_
        cases hr : (dispatch hs tail (i + 1) ⟨(i : Int), st.ctx⟩).res with
        | ok u =>
          intro _
          simpa using ih (i + 1) ⟨(i : Int), st.ctx⟩ hg (by cases u; exact hr)
        | error e => intro hc; simp at hc
theorem frameCatch_nil_res (body : DOut) : (frameCatch [] body).res = body.res := by
  unfold frameCatch
  cases hb : body.res with
  | ok u => exact hb
  | error e => simp [handleError_nil]

theorem frameCatch_nil_tr (body : DOut) : (frameCatch [] body).tr = body.tr := by
  unfold frameCatch
  cases hb : body.res with
  | ok u => rfl
  | error e => simp [handleError_nil]

theorem dispatch_nil_mwThrow (rest : List MW) (i : Nat) (st : DState) :
    ((dispatch [] rest i st).res = Except.ok () →
      ∀ t e, Event.mwThrow t e ∉ (dispatch [] rest i st).tr) ∧
    (∀ e0, (dispatch [] rest i st).res = Except.error e0 →
      (∃ t, Event.mwThrow t e0 ∈ (dispatch [] rest i st).tr) ∨
        (e0 = reentrantError ∧
          ∀ t e1, Event.mwThrow t e1 ∉ (dispatch [] rest i st).tr)) := by
  induction rest generalizing i st with
  | nil =>
    by_cases hgd : (i : Int) ≤ st.index
    · rw [dispatch_guard_le [] [] i st hgd]
      constructor
      · intro h
        exact absurd h (by simp)
      · intro e0 he0
        refine Or.inr ⟨?_, ?_⟩
        · simp at he0
          exact he0.symm
        · intro t e1 hmem
          simp at hmem
    · rw [dispatch_nil_mw [] i st hgd]
      constructor
      · intro _ t e hmem
        simp at hmem
      · intro e0 he0
        exact absurd he0 (by simp)
  | cons mw tail ih =>
    by_cases hgd : (i : Int) ≤ st.index
    · rw [dispatch_guard_le [] (mw :: tail) i st hgd]
      constructor
      · intro h
        exact absurd h (by simp)
      · intro e0 he0
        refine Or.inr ⟨?_, ?_⟩
        · simp at he0
          exact he0.symm
        · intro t e1 hmem
          simp at hmem
    · obtain ⟨ihok, iherr⟩ := ih (i + 1) ⟨(i : Int), st.ctx⟩
      cases mw with
      | normal tag =>
        rw [dispatch_cons_normal [] tag tail i st hgd]
        rw [frameCatch_nil_res, frameCatch_nil_tr]
        constructor
        · intro hok t e hmem
          cases hr : (dispatch [] tail (i + 1) ⟨(i : Int), st.ctx⟩).res with
          | ok u =>
            rw [hr] at hmem
            simp at hmem
            exact ihok (by cases u; exact hr) t e hmem
          | error e1 =>
            rw [hr] at hok
            simp at hok
        · intro e0 he0
          cases hr : (dispatch [] tail (i + 1) ⟨(i : Int), st.ctx⟩).res with
          | ok u =>
            rw [hr] at he0
            simp at he0
          | error e1 =>
            rw [hr] at he0
            simp at he0
            subst he0
            rcases iherr _ hr with ⟨t, hmem⟩ | ⟨heq, hclean⟩
            · exact Or.inl ⟨t, by simp [hmem]⟩
            · refine Or.inr ⟨heq, ?_⟩
              intro t e1 hmem
              simp at hmem
              exact hclean t e1 hmem
      | throwPre tag e =>
        rw [dispatch_cons_throwPre [] tag e tail i st hgd]
        rw [frameCatch_nil_res, frameCatch_nil_tr]
        constructor
        · intro hok
          simp at hok
        · intro e0 he0
          simp at he0
          subst he0
          exact Or.inl ⟨tag, by simp⟩
      | throwPost tag e =>
        rw [dispatch_cons_throwPost [] tag e tail i st hgd]
        rw [frameCatch_nil_res, frameCatch_nil_tr]
        constructor
        · intro hok
          cases hr : (dispatch [] tail (i + 1) ⟨(i : Int), st.ctx⟩).res with
          | ok u =>
            rw [hr] at hok
            simp at hok
          | error e1 =>
            rw [hr] at hok
            simp at hok
        · intro e0 he0
          cases hr : (dispatch [] tail (i + 1) ⟨(i : Int), st.ctx⟩).res with
          | ok u =>
            rw [hr] at he0
            simp at he0
            subst he0
            exact Or.inl ⟨tag, by simp⟩
          | error e1 =>
            rw [hr] at he0
            simp at he0
            subst he0
            rcases iherr _ hr with ⟨t, hmem⟩ | ⟨heq, hclean⟩
            · exact Or.inl ⟨t, by simp [hmem]⟩
            · refine Or.inr ⟨heq, ?_⟩
              intro t e1 hmem
              simp at hmem
              exact hclean t e1 hmem
      | noNext tag resp =>
        rw [dispatch_cons_noNext [] tag resp tail i st hgd]
        rw [frameCatch_nil_res, frameCatch_nil_tr]
        constructor
        · intro _ t e hmem
          simp at hmem
        · intro e0 he0
          exact absurd he0 (by simp)
      | catchThenThrow tag e =>
        rw [dispatch_cons_catchThenThrow [] tag e tail i st hgd]
        rw [frameCatch_nil_res, frameCatch_nil_tr]
        constructor
        · intro hok t e1 hmem
          cases hr : (dispatch [] tail (i + 1) ⟨(i : Int), st.ctx⟩).res with
          | ok u =>
            rw [hr] at hmem
            simp at hmem
            exact ihok (by cases u; exact hr) t e1 hmem
          | error e2 =>
            rw [hr] at hok
            simp at hok
        · intro e0 he0
          cases hr : (dispatch [] tail (i + 1) ⟨(i : Int), st.ctx⟩).res with
          | ok u =>
            rw [hr] at he0
            simp at he0
          | error e2 =>
            rw [hr] at he0
            simp at he0
            subst he0
            exact Or.inl ⟨tag, by simp⟩
      | callNextTwice tag =>
        rw [dispatch_cons_callNextTwice [] tag tail i st hgd]
        rw [frameCatch_nil_res, frameCatch_nil_tr]
        constructor
        · intro hok t e1 hmem
          cases hr : (dispatch [] tail (i + 1) ⟨(i : Int), st.ctx⟩).res with
          | error e2 =>
            rw [hr] at hok
            simp at hok
          | ok u =>
            obtain ⟨ihok2, iherr2⟩ := ih (i + 1)
              (dispatch [] tail (i + 1) ⟨(i : Int), st.ctx⟩).st
            cases hr2 : (dispatch [] tail (i + 1)
                (dispatch [] tail (i + 1) ⟨(i : Int), st.ctx⟩).st).res with
            | error e3 =>
              rw [hr, hr2] at hok
              simp at hok
            | ok u2 =>
              rw [hr, hr2] at hmem
              simp at hmem
              rcases hmem with hmem | hmem
              · exact ihok (by cases u; exact hr) t e1 hmem
              · exact ihok2 (by cases u2; exact hr2) t e1 hmem
        · intro e0 he0
          cases hr : (dispatch [] tail (i + 1) ⟨(i : Int), st.ctx⟩).res with
          | error e2 =>
            rw [hr] at he0
            simp at he0
            subst he0
            rcases iherr _ hr with ⟨t, hmem⟩ | ⟨heq, hclean⟩
            · exact Or.inl ⟨t, by simp [hmem]⟩
            · refine Or.inr ⟨heq, ?_⟩
              intro t e1 hmem
              simp at hmem
              exact hclean t e1 hmem
          | ok u =>
            obtain ⟨ihok2, iherr2⟩ := ih (i + 1)
              (dispatch [] tail (i + 1) ⟨(i : Int), st.ctx⟩).st
            cases hr2 : (dispatch [] tail (i + 1)
                (dispatch [] tail (i + 1) ⟨(i : Int), st.ctx⟩).st).res with
            | ok u2 =>
              rw [hr, hr2] at he0
              simp at he0
            | error e3 =>
              rw [hr, hr2] at he0
              simp at he0
              subst he0
              rcases iherr2 _ hr2 with ⟨t, hmem⟩ | ⟨heq, hclean2⟩
              · exact Or.inl ⟨t, by simp [hmem]⟩
              · refine Or.inr ⟨heq, ?_⟩
                intro t e1 hmem
                simp at hmem
                rcases hmem with hmem | hmem
                · exact ihok (by cases u; exact hr) t e1 hmem
                · exact hclean2 t e1 hmem
      | respAfterNext tag v =>
        rw [dispatch_cons_respAfterNext [] tag v tail i st hgd]
        rw [frameCatch_nil_res, frameCatch_nil_tr]
        constructor
        · intro hok t e1 hmem
          cases hr : (dispatch [] tail (i + 1) ⟨(i : Int), st.ctx⟩).res with
          | ok u =>
            rw [hr] at hmem
            simp at hmem
            exact ihok (by cases u; exact hr) t e1 hmem
          | error e2 =>
            rw [hr] at hok
            simp at hok
        · intro e0 he0
          cases hr : (dispatch [] tail (i + 1) ⟨(i : Int), st.ctx⟩).res with
          | ok u =>
            rw [hr] at he0
            simp at he0
          | error e2 =>
            rw [hr] at he0
            simp at he0
            subst he0
            rcases iherr _ hr with ⟨t, hmem⟩ | ⟨heq, hclean⟩
            · exact Or.inl ⟨t, by simp [hmem]⟩
            · refine Or.inr ⟨heq, ?_⟩
              intro t e1 hmem
              simp at hmem
              exact hclean t e1 hmem
theorem dispatch_normal_chain_ok (hs : List EH) (tags : List Nat) (rest2 : List MW)
    (i : Nat) (st : DState) (hg : st.index < (i : Int))
    (hok : (dispatch hs rest2 (i + tags.length)
        ⟨((i + tags.length : Nat) : Int) - 1, st.ctx⟩).res = Except.ok ()) :
    dispatch hs (tags.map MW.normal ++ rest2) i st =
      ⟨(dispatch hs rest2 (i + tags.length)
          ⟨((i + tags.length : Nat) : Int) - 1, st.ctx⟩).st,
       Except.ok (),
       tags.map Event.enter ++
         (dispatch hs rest2 (i + tags.length)
            ⟨((i + tags.length : Nat) : Int) - 1, st.ctx⟩).tr ++
         tags.reverse.map Event.exit⟩ := by
  induction tags generalizing i st with
  | nil =>
    cases st with
    | mk sa sc =>
      simp only [List.length_nil, Nat.add_zero, List.map_nil, List.nil_append,
        List.reverse_nil, List.append_nil] at hok ⊢
      rw [dispatch_index_irrel hs rest2 i sa ((i : Int) - 1) sc (by simpa using hg)
        (by omega)]
      rw [← hok]
  | cons t tags1 ih =>
    cases st with
    | mk sa sc =>
      have harith : i + (t :: tags1).length = (i + 1) + tags1.length := by
        simp
        omega
      rw [harith] at hok
      have hd := ih (i + 1) ⟨(i : Int), sc⟩ (by push_cast; omega) hok
      simp only [List.map_cons, List.cons_append]
      rw [dispatch_cons_normal hs t (tags1.map MW.normal ++ rest2) i ⟨sa, sc⟩
        (by simpa using Int.not_le.mpr (by simpa using hg))]
      rw [hd]
      rw [harith]
      simp [frameCatch, List.append_assoc]

theorem ctx_set_error_self (c : Ctx) (e : Err) (h : c.error = some e) :
    { c with error := some e } = c := by
  cases c with
  | mk er eh rp =>
    simp only at h
    rw [h]

theorem frameCatch_nil_err_explicit (stx : DState) (e : Err) (tr : List Event)
    (hce : stx.ctx.error = some e) :
    frameCatch [] ⟨stx, Except.error e, tr⟩ = ⟨stx, Except.error e, tr⟩ := by
  rw [frameCatch_of_err [] _ e rfl]
  simp [handleError_nil, ctx_set_error_self _ e hce]

theorem frameCatch_pass_err_explicit (stx : DState) (e : Err) (tr : List Event)
    (hce : stx.ctx.error = some e) (hh : stx.ctx.errorHandled = false) :
    frameCatch [EH.pass] ⟨stx, Except.error e, tr⟩ =
      ⟨stx, Except.error e, tr ++ [Event.handlerCall 0 e (some e)]⟩ := by
  rw [frameCatch_of_err [EH.pass] _ e rfl]
  rw [handleError_pass_of_unhandled e stx.ctx hh]
  simp [ctx_set_error_self _ e hce]

theorem dispatch_normal_chain_err_nil (tags : List Nat) (rest2 : List MW)
    (i : Nat) (st : DState) (e : Err) (hg : st.index < (i : Int))
    (herr : (dispatch [] rest2 (i + tags.length)
        ⟨((i + tags.length : Nat) : Int) - 1, st.ctx⟩).res = Except.error e) :
    dispatch [] (tags.map MW.normal ++ rest2) i st =
      ⟨(dispatch [] rest2 (i + tags.length)
          ⟨((i + tags.length : Nat) : Int) - 1, st.ctx⟩).st,
       Except.error e,
       tags.map Event.enter ++
         (dispatch [] rest2 (i + tags.length)
            ⟨((i + tags.length : Nat) : Int) - 1, st.ctx⟩).tr⟩ := by
  have hctx : (dispatch [] rest2 (i + tags.length)
      ⟨((i + tags.length : Nat) : Int) - 1, st.ctx⟩).st.ctx.error = some e :=
    dispatch_error_ctx [] rest2 (i + tags.length) _ e (by simp) herr
  induction tags generalizing i st with
  | nil =>
    cases st with
    | mk sa sc =>
      simp only [List.length_nil, Nat.add_zero, List.map_nil, List.nil_append] at herr hctx ⊢
      rw [dispatch_index_irrel [] rest2 i sa ((i : Int) - 1) sc (by simpa using hg)
        (by omega)]
      rw [← herr]
  | cons t tags1 ih =>
    cases st with
    | mk sa sc =>
      have harith : i + (t :: tags1).length = (i + 1) + tags1.length := by
        simp
        omega
      rw [harith] at herr hctx
      have hd := ih (i + 1) ⟨(i : Int), sc⟩ (by push_cast; omega) herr hctx
      simp only [List.map_cons, List.cons_append]
      rw [dispatch_cons_normal [] t (tags1.map MW.normal ++ rest2) i ⟨sa, sc⟩
        (by simpa using Int.not_le.mpr (by simpa using hg))]
      rw [hd]
      rw [harith]
      dsimp only
      rw [frameCatch_nil_err_explicit _ e _ hctx]

theorem dispatch_normal_chain_err_pass (tags : List Nat) (rest2 : List MW)
    (i : Nat) (st : DState) (e : Err) (hg : st.index < (i : Int))
    (hh : st.ctx.errorHandled = false)
    (herr : (dispatch [EH.pass] rest2 (i + tags.length)
        ⟨((i + tags.length : Nat) : Int) - 1, st.ctx⟩).res = Except.error e) :
    dispatch [EH.pass] (tags.map MW.normal ++ rest2) i st =
      ⟨(dispatch [EH.pass] rest2 (i + tags.length)
          ⟨((i + tags.length : Nat) : Int) - 1, st.ctx⟩).st,
       Except.error e,
       tags.map Event.enter ++
         (dispatch [EH.pass] rest2 (i + tags.length)
            ⟨((i + tags.length : Nat) : Int) - 1, st.ctx⟩).tr ++
         List.replicate tags.length (Event.handlerCall 0 e (some e))⟩ := by
  have hctx : (dispatch [EH.pass] rest2 (i + tags.length)
      ⟨((i + tags.length : Nat) : Int) - 1, st.ctx⟩).st.ctx.error = some e :=
    dispatch_error_ctx [EH.pass] rest2 (i + tags.length) _ e (by simp) herr
  have hhinner : (dispatch [EH.pass] rest2 (i + tags.length)
      ⟨((i + tags.length : Nat) : Int) - 1, st.ctx⟩).st.ctx.errorHandled = false :=
    dispatch_pass_handled rest2 (i + tags.length) _ hh
  induction tags generalizing i st with
  | nil =>
    cases st with
    | mk sa sc =>
      simp only [List.length_nil, Nat.add_zero, List.map_nil, List.nil_append,
        List.replicate_zero, List.append_nil] at herr hctx hhinner ⊢
      rw [dispatch_index_irrel [EH.pass] rest2 i sa ((i : Int) - 1) sc (by simpa using hg)
        (by omega)]
      rw [← herr]
  | cons t tags1 ih =>
    cases st with
    | mk sa sc =>
      have harith : i + (t :: tags1).length = (i + 1) + tags1.length := by
        simp
        omega
      rw [harith] at herr hctx hhinner
      have hd := ih (i + 1) ⟨(i : Int), sc⟩ (by push_cast; omega) hh herr hctx hhinner
      simp only [List.map_cons, List.cons_append]
      rw [dispatch_cons_normal [EH.pass] t (tags1.map MW.normal ++ rest2) i ⟨sa, sc⟩
        (by simpa using Int.not_le.mpr (by simpa using hg))]
      rw [hd]
      rw [harith]
      dsimp only
      rw [frameCatch_pass_err_explicit _ e _ hctx hhinner]
      simp [List.replicate_succ', List.append_assoc]

theorem handleError_cons_tr (hd : EH) (tl : List EH) (e : Err) (ctx : Ctx) :
    (handleError (hd :: tl) e ctx).2.2 =
      (runHandlers e (hd :: tl) 0 { ctx with error := some e }).2 := by
  rw [handleError_cons]
  split <;> rfl

theorem handleError_cons_ctx (hd : EH) (tl : List EH) (e : Err) (ctx : Ctx) :
    (handleError (hd :: tl) e ctx).1 =
      (runHandlers e (hd :: tl) 0 { ctx with error := some e }).1 := by
  rw [handleError_cons]
  split <;> rfl

theorem execute_of_dispatch_ok (mws : List MW) (hs : List EH) (ctx0 : Ctx)
    (h : (dispatch hs mws 0 ⟨(-1 : Int), ctx0⟩).res = Except.ok ()) :
    execute mws hs ctx0 =
      ⟨(dispatch hs mws 0 ⟨(-1 : Int), ctx0⟩).st.ctx, Except.ok (),
       (dispatch hs mws 0 ⟨(-1 : Int), ctx0⟩).tr⟩ := by
  unfold execute
  simp only [h]

theorem execute_of_dispatch_err (mws : List MW) (hs : List EH) (ctx0 : Ctx) (e : Err)
    (h : (dispatch hs mws 0 ⟨(-1 : Int), ctx0⟩).res = Except.error e) :
    execute mws hs ctx0 =
      ⟨(handleError hs e (dispatch hs mws 0 ⟨(-1 : Int), ctx0⟩).st.ctx).1,
       (handleError hs e (dispatch hs mws 0 ⟨(-1 : Int), ctx0⟩).st.ctx).2.1,
       (dispatch hs mws 0 ⟨(-1 : Int), ctx0⟩).tr ++
         (handleError hs e (dispatch hs mws 0 ⟨(-1 : Int), ctx0⟩).st.ctx).2.2⟩ := by
  unfold execute
  simp only [h]

theorem execute_error_ctx (mws : List MW) (hs : List EH) (ctx0 : Ctx) (e : Err)
    (h : (execute mws hs ctx0).outcome = Except.error e) :
    (execute mws hs ctx0).ctx.error = some e := by
  cases hd : (dispatch hs mws 0 ⟨(-1 : Int), ctx0⟩).res with
  | ok u =>
    rw [execute_of_dispatch_ok mws hs ctx0 (by cases u; exact hd)] at h
    cases h
  | error e0 =>
    rw [execute_of_dispatch_err mws hs ctx0 e0 hd] at h ⊢
    exact handleError_err_ctx hs e0 e _ h

theorem countEvent_append (ev : Event) (l1 l2 : List Event) :
    countEvent ev (l1 ++ l2) = countEvent ev l1 + countEvent ev l2 := by
  induction l1 with
  | nil => simp [countEvent]
  | cons x xs ih => simp [countEvent, ih]; omega

theorem countEvent_eq_zero (ev : Event) (l : List Event) (h : ev ∉ l) :
    countEvent ev l = 0 := by
  induction l with
  | nil => rfl
  | cons x xs ih =>
    simp only [List.mem_cons, not_or] at h
    have hx : ¬ x = ev := fun he => h.1 he.symm
    simp [countEvent, hx, ih h.2]

theorem countEvent_replicate (ev : Event) (n : Nat) :
    countEvent ev (List.replicate n ev) = n := by
  induction n with
  | zero => rfl
  | succ m ih => simp [List.replicate_succ, countEvent, ih, Nat.add_comm]

theorem dispatch_chain_ok (hs : List EH) (tags : List Nat) (rest2 : List MW)
    (i : Nat) (sa : Int) (sc : Ctx) (hg : sa < (i : Int))
    (hok : (dispatch hs rest2 (i + tags.length)
        ⟨((i + tags.length : Nat) : Int) - 1, sc⟩).res = Except.ok ()) :
    dispatch hs (tags.map MW.normal ++ rest2) i ⟨sa, sc⟩ =
      ⟨(dispatch hs rest2 (i + tags.length)
          ⟨((i + tags.length : Nat) : Int) - 1, sc⟩).st,
       Except.ok (),
       tags.map Event.enter ++
         (dispatch hs rest2 (i + tags.length)
            ⟨((i + tags.length : Nat) : Int) - 1, sc⟩).tr ++
         tags.reverse.map Event.exit⟩ :=
  dispatch_normal_chain_ok hs tags rest2 i ⟨sa, sc⟩ hg hok

theorem dispatch_chain_err_nil (tags : List Nat) (rest2 : List MW)
    (i : Nat) (sa : Int) (sc : Ctx) (e : Err) (hg : sa < (i : Int))
    (herr : (dispatch [] rest2 (i + tags.length)
        ⟨((i + tags.length : Nat) : Int) - 1, sc⟩).res = Except.error e) :
    dispatch [] (tags.map MW.normal ++ rest2) i ⟨sa, sc⟩ =
      ⟨(dispatch [] rest2 (i + tags.length)
          ⟨((i + tags.length : Nat) : Int) - 1, sc⟩).st,
       Except.error e,
       tags.map Event.enter ++
         (dispatch [] rest2 (i + tags.length)
            ⟨((i + tags.length : Nat) : Int) - 1, sc⟩).tr⟩ :=
  dispatch_normal_chain_err_nil tags rest2 i ⟨sa, sc⟩ e hg herr

theorem dispatch_chain_err_pass (tags : List Nat) (rest2 : List MW)
    (i : Nat) (sa : Int) (sc : Ctx) (e : Err) (hg : sa < (i : Int))
    (hh : sc.errorHandled = false)
    (herr : (dispatch [EH.pass] rest2 (i + tags.length)
        ⟨((i + tags.length : Nat) : Int) - 1, sc⟩).res = Except.error e) :
    dispatch [EH.pass] (tags.map MW.normal ++ rest2) i ⟨sa, sc⟩ =
      ⟨(dispatch [EH.pass] rest2 (i + tags.length)
          ⟨((i + tags.length : Nat) : Int) - 1, sc⟩).st,
       Except.error e,
       tags.map Event.enter ++
         (dispatch [EH.pass] rest2 (i + tags.length)
            ⟨((i + tags.length : Nat) : Int) - 1, sc⟩).tr ++
         List.replicate tags.length (Event.handlerCall 0 e (some e))⟩ :=
  dispatch_normal_chain_err_pass tags rest2 i ⟨sa, sc⟩ e hg hh herr

/-- Claim C1: for a dispatcher with regular middleware m1..mn and a terminal
handler t supplied as the second argument of execute, a run in which every
middleware calls next exactly once runs the pre-next portions in order
m1..mn then t, unwinds the post-next portions in order t, mn..m1, and
invokes the supplied terminal exactly once.  The middleware are the normal
behaviour with pairwise roles given by tags; the terminal carries a tag not
among them so that its single invocation is countable. -/
theorem c1_onion_order (tags : List Nat) (ttag : Nat) (hs : List EH) (ctx0 : Ctx)
    (hnot : ttag ∉ tags) :
    (executeWith (tags.map MW.normal) hs (MW.normal ttag) ctx0).outcome =
        Except.ok () ∧
    (executeWith (tags.map MW.normal) hs (MW.normal ttag) ctx0).trace =
      tags.map Event.enter ++ [Event.enter ttag, Event.exit ttag] ++
        tags.reverse.map Event.exit ∧
    countEvent (Event.enter ttag)
      (executeWith (tags.map MW.normal) hs (MW.normal ttag) ctx0).trace = 1 := by
  have hlist : tags.map MW.normal ++ [MW.normal ttag] =
      (tags ++ [ttag]).map MW.normal ++ [] := by simp
  have hinner := dispatch_nil_mw hs (0 + (tags ++ [ttag]).length)
    ⟨((0 + (tags ++ [ttag]).length : Nat) : Int) - 1, ctx0⟩ (by dsimp only; omega)
  have hd := dispatch_chain_ok hs (tags ++ [ttag]) [] 0 (-1) ctx0 (by omega)
    (by rw [hinner])
  rw [hinner] at hd
  unfold executeWith
  rw [hlist]
  rw [execute_of_dispatch_ok _ hs ctx0 (by rw [hd])]
  rw [hd]
  refine ⟨rfl, ?_, ?_⟩
  · simp [List.reverse_append, List.append_assoc]
  · have h1 : countEvent (Event.enter ttag) ((tags ++ [ttag]).map Event.enter) = 1 := by
      rw [List.map_append, countEvent_append]
      rw [countEvent_eq_zero _ _ (by
        intro hmem
        simp only [List.mem_map] at hmem
        obtain ⟨x, hx, heq⟩ := hmem
        cases heq
        exact hnot hx)]
      simp [countEvent]
    have h2 : countEvent (Event.enter ttag) ((tags ++ [ttag]).reverse.map Event.exit) = 0 :=
      countEvent_eq_zero _ _ (by simp)
    dsimp only
    rw [countEvent_append, countEvent_append, h1, h2]
    simp [countEvent]

/-- Claim C1 witness at a concrete instance. -/
theorem c1_witness :
    (executeWith ([0, 1].map MW.normal) [] (MW.normal 2) emptyCtx).outcome =
        Except.ok () ∧
    (executeWith ([0, 1].map MW.normal) [] (MW.normal 2) emptyCtx).trace =
      [0, 1].map Event.enter ++ [Event.enter 2, Event.exit 2] ++
        [0, 1].reverse.map Event.exit ∧
    countEvent (Event.enter 2)
      (executeWith ([0, 1].map MW.normal) [] (MW.normal 2) emptyCtx).trace = 1 :=
  c1_onion_order [0, 1] 2 [] emptyCtx (by decide)

/-- Claim C7, amended: a middleware invoking next a second time for the same
position has the second call reject with the plain Error whose message is
"next() called multiple times" (part_005 line 66), before any post-next code
of that middleware runs; the failure is an ordinary Error value distinguished
only by its message, not a distinct error kind.  Stated for a chain of any
depth of well-behaved middleware above the offender, with no handlers, so the
rejection reaches the caller unchanged. -/
theorem c7_reentrant (tags : List Nat) (t : Nat) (ctx0 : Ctx) :
    (execute (tags.map MW.normal ++ [MW.callNextTwice t]) [] ctx0).outcome =
        Except.error reentrantError ∧
    reentrantError = Err.error "next() called multiple times" ∧
    (execute (tags.map MW.normal ++ [MW.callNextTwice t]) [] ctx0).trace =
      tags.map Event.enter ++ [Event.enter t] := by
  have h1 := dispatch_nil_mw [] (0 + tags.length + 1)
    ⟨((0 + tags.length : Nat) : Int), ctx0⟩ (by dsimp only; omega)
  have h2 := dispatch_guard_le [] [] (0 + tags.length + 1)
    ⟨((0 + tags.length + 1 : Nat) : Int), ctx0⟩ (by dsimp only; omega)
  have hinner : dispatch [] [MW.callNextTwice t] (0 + tags.length)
      ⟨((0 + tags.length : Nat) : Int) - 1, ctx0⟩ =
      ⟨⟨((0 + tags.length + 1 : Nat) : Int), { ctx0 with error := some reentrantError }⟩,
       Except.error reentrantError, [Event.enter t]⟩ := by
    rw [dispatch_cons_callNextTwice [] t [] (0 + tags.length)
      ⟨((0 + tags.length : Nat) : Int) - 1, ctx0⟩ (by dsimp only; omega)]
    dsimp only
    rw [h1]
    dsimp only
    rw [h2]
    dsimp only
    rw [frameCatch_of_err [] _ reentrantError rfl]
    simp [handleError_nil]
  have hd := dispatch_chain_err_nil tags [MW.callNextTwice t] 0 (-1) ctx0
    reentrantError (by omega) (by rw [hinner])
  rw [hinner] at hd
  rw [execute_of_dispatch_err _ [] ctx0 reentrantError (by rw [hd])]
  rw [hd]
  simp [handleError_nil, reentrantError]

/-- Claim C7 counterexample to the distinct-kind part: the rejection produced
by a double next call is equal, as a thrown value, to an ordinary failure a
middleware can throw itself, so it is not a kind distinguishable from
ordinary middleware failures. -/
theorem c7_counterexample :
    (execute [MW.callNextTwice 0, MW.normal 1] [] emptyCtx).outcome =
        Except.error (Err.error "next() called multiple times") ∧
    (execute [MW.throwPre 0 (Err.error "next() called multiple times")] [] emptyCtx).outcome =
        Except.error (Err.error "next() called multiple times") ∧
    (execute [MW.callNextTwice 0, MW.normal 1] [] emptyCtx).outcome =
      (execute [MW.throwPre 0 (Err.error "next() called multiple times")] [] emptyCtx).outcome := by
  refine ⟨?_, ?_, ?_⟩ <;> rfl

/-- Claim C10: with one registered error handler that never marks the error
handled, a single throwing middleware has that handler invoked exactly twice
before execute rejects, and nesting the thrower under n well-behaved
middleware has the handler re-run at every frame the rejection crosses: the
handler runs n plus 2 times in total, once at the throwing frame, once at
each enclosing frame, and once at the top level catch of execute. -/
theorem c10_handler_reruns (e0 : Err) (tags : List Nat) :
    countEvent (Event.handlerCall 0 e0 (some e0))
        (execute (tags.map MW.normal ++ [MW.throwPre 900 e0]) [EH.pass] emptyCtx).trace =
      tags.length + 2 ∧
    (execute (tags.map MW.normal ++ [MW.throwPre 900 e0]) [EH.pass] emptyCtx).outcome =
      Except.error e0 := by
  have hinner : dispatch [EH.pass] [MW.throwPre 900 e0] (0 + tags.length)
      ⟨((0 + tags.length : Nat) : Int) - 1, emptyCtx⟩ =
      ⟨⟨((0 + tags.length : Nat) : Int), { emptyCtx with error := some e0 }⟩,
       Except.error e0,
       [Event.enter 900, Event.mwThrow 900 e0, Event.handlerCall 0 e0 (some e0)]⟩ := by
    rw [dispatch_cons_throwPre [EH.pass] 900 e0 [] (0 + tags.length)
      ⟨((0 + tags.length : Nat) : Int) - 1, emptyCtx⟩ (by dsimp only; omega)]
    rw [frameCatch_of_err [EH.pass] _ e0 rfl]
    rw [handleError_pass_of_unhandled e0 _ rfl]
    rfl
  have hd := dispatch_chain_err_pass tags [MW.throwPre 900 e0] 0 (-1) emptyCtx e0
    (by omega) rfl (by rw [hinner])
  rw [hinner] at hd
  rw [execute_of_dispatch_err _ [EH.pass] emptyCtx e0 (by rw [hd])]
  rw [hd]
  rw [handleError_pass_of_unhandled e0 _ rfl]
  constructor
  · dsimp only
    rw [countEvent_append, countEvent_append, countEvent_append]
    rw [countEvent_eq_zero _ (tags.map Event.enter) (by
      intro hmem
      simp only [List.mem_map] at hmem
      obtain ⟨x, hx, heq⟩ := hmem
      cases heq)]
    rw [countEvent_replicate]
    simp [countEvent]
    omega
  · rfl

/-- Claim C2, counterexample: the three outcomes are neither exhaustive nor
mutually exclusive.  A run over an empty middleware list ends with none of
the three (no response, no error), and a run whose handler recovers with a
response ends satisfying both the first and the second. -/
theorem c2_counterexample :
    (¬ (((execute [] [] emptyCtx).ctx.response.isSome = true) ∨
        ((execute [] [] emptyCtx).ctx.error.isSome = true ∧
          (execute [] [] emptyCtx).ctx.errorHandled = true) ∨
        ((execute [] [] emptyCtx).ctx.error.isSome = true ∧
          (execute [] [] emptyCtx).ctx.errorHandled = false))) ∧
    ((execute [MW.throwPre 0 (Err.value 0)] [EH.handle (some 7)] emptyCtx).ctx.response.isSome
        = true ∧
      (execute [MW.throwPre 0 (Err.value 0)] [EH.handle (some 7)] emptyCtx).ctx.error.isSome
        = true ∧
      (execute [MW.throwPre 0 (Err.value 0)] [EH.handle (some 7)] emptyCtx).ctx.errorHandled
        = true) := by
  decide

/-- Claim C2, amended: after execute settles, a rejection leaves the error
recorded with errorHandled false, and a normal return with an error recorded
has errorHandled true; the three outcomes of the original claim are neither
mutually exclusive nor exhaustive. -/
theorem c2_amended (mws : List MW) (hs : List EH) (ctx0 : Ctx)
    (h0 : ctx0.error = none) (h1 : ctx0.errorHandled = false) :
    (∀ e, (execute mws hs ctx0).outcome = Except.error e →
      (execute mws hs ctx0).ctx.error = some e ∧
        (execute mws hs ctx0).ctx.errorHandled = false) ∧
    ((execute mws hs ctx0).outcome = Except.ok () →
      (execute mws hs ctx0).ctx.error.isSome = true →
      (execute mws hs ctx0).ctx.errorHandled = true) := by
  constructor
  · intro e he
    refine ⟨execute_error_ctx mws hs ctx0 e he, ?_⟩
    cases hd : (dispatch hs mws 0 ⟨(-1 : Int), ctx0⟩).res with
    | ok u =>
      rw [execute_of_dispatch_ok mws hs ctx0 (by cases u; exact hd)] at he
      cases he
    | error e0 =>
      rw [execute_of_dispatch_err mws hs ctx0 e0 hd] at he ⊢
      cases hs with
      | nil =>
        show (dispatch [] mws 0 ⟨(-1 : Int), ctx0⟩).st.ctx.errorHandled = false
        exact (dispatch_nil_handled mws 0 ⟨(-1 : Int), ctx0⟩).trans h1
      | cons hh ht =>
        exact handleError_err_handled (hh :: ht) e0 e _ (by simp) he
  · intro hok hsome
    cases hd : (dispatch hs mws 0 ⟨(-1 : Int), ctx0⟩).res with
    | ok u =>
      rw [execute_of_dispatch_ok mws hs ctx0 (by cases u; exact hd)] at hsome ⊢
      exact dispatch_good hs mws 0 ⟨(-1 : Int), ctx0⟩
        (by intro hc; simp [h0] at hc) (by cases u; exact hd) hsome
    | error e0 =>
      rw [execute_of_dispatch_err mws hs ctx0 e0 hd] at hok ⊢
      exact handleError_ok_handled hs e0 _ hok

/-- Claim C2 witness at a concrete instance. -/
theorem c2_witness :
    (execute [MW.throwPre 0 (Err.value 1)] [] emptyCtx).ctx.error =
        some (Err.value 1) ∧
    (execute [MW.throwPre 0 (Err.value 1)] [] emptyCtx).ctx.errorHandled = false :=
  (c2_amended [MW.throwPre 0 (Err.value 1)] [] emptyCtx rfl rfl).1 (Err.value 1)
    (by decide)

/-- Claim C3: a rejection of execute is always preceded by an offer of the
failure to every registered error handler, and with no registered handler a
run in which some middleware throws rejects with an error a middleware threw
rather than swallowing it. -/
theorem c3_error_routing (mws : List MW) (hs : List EH) (ctx0 : Ctx) :
    (∀ e, (execute mws hs ctx0).outcome = Except.error e →
      ∀ j, j < hs.length →
        ∃ a oe, Event.handlerCall j a oe ∈ (execute mws hs ctx0).trace) ∧
    (hs = [] →
      (∃ t e1, Event.mwThrow t e1 ∈ (execute mws hs ctx0).trace) →
      ∃ e, (execute mws hs ctx0).outcome = Except.error e ∧
        ∃ t, Event.mwThrow t e ∈ (execute mws hs ctx0).trace) := by
  constructor
  · intro e he j hj
    cases hd : (dispatch hs mws 0 ⟨(-1 : Int), ctx0⟩).res with
    | ok u =>
      rw [execute_of_dispatch_ok mws hs ctx0 (by cases u; exact hd)] at he
      cases he
    | error e0 =>
      rw [execute_of_dispatch_err mws hs ctx0 e0 hd] at he ⊢
      cases hs with
      | nil => simp at hj
      | cons hh ht =>
        have hfalse := handleError_err_handled (hh :: ht) e0 e _ (by simp) he
        rw [handleError_cons_ctx] at hfalse
        obtain ⟨oe, hoe⟩ := runHandlers_all_called e0 (hh :: ht) 0 _ hfalse j hj
        refine ⟨e0, oe, ?_⟩
        rw [handleError_cons_tr]
        simp only [List.mem_append]
        right
        simpa using hoe
  · intro hnil hex
    subst hnil
    obtain ⟨invok, inverr⟩ := dispatch_nil_mwThrow mws 0 ⟨(-1 : Int), ctx0⟩
    cases hd : (dispatch [] mws 0 ⟨(-1 : Int), ctx0⟩).res with
    | ok u =>
      rw [execute_of_dispatch_ok mws [] ctx0 (by cases u; exact hd)] at hex
      obtain ⟨t, e1, hmem⟩ := hex
      exact absurd hmem (invok (by cases u; exact hd) t e1)
    | error e0 =>
      rw [execute_of_dispatch_err mws [] ctx0 e0 hd] at hex ⊢
      simp only [handleError_nil, List.append_nil] at hex ⊢
      rcases inverr e0 hd with ⟨t, hmem⟩ | ⟨heq, hclean⟩
      · exact ⟨e0, rfl, t, hmem⟩
      · obtain ⟨t, e1, hmem⟩ := hex
        exact absurd hmem (hclean t e1)

/-- Claim C3 witness at concrete instances for both parts. -/
theorem c3_witness :
    (∃ a oe, Event.handlerCall 0 a oe ∈
      (execute [MW.throwPre 0 (Err.value 3)] [EH.pass] emptyCtx).trace) ∧
    (∃ e, (execute [MW.throwPre 1 (Err.value 4)] [] emptyCtx).outcome =
        Except.error e ∧
      ∃ t, Event.mwThrow t e ∈
        (execute [MW.throwPre 1 (Err.value 4)] [] emptyCtx).trace) :=
  ⟨(c3_error_routing [MW.throwPre 0 (Err.value 3)] [EH.pass] emptyCtx).1 (Err.value 3)
      (by decide) 0 (by decide),
   (c3_error_routing [MW.throwPre 1 (Err.value 4)] [] emptyCtx).2 rfl
      ⟨1, Err.value 4, by decide⟩⟩

/-- Claim C4, counterexample: handleError stores the caught error into the
context unconditionally (part_005 line 100), so a later middleware failure
overwrites an already recorded one even though no error handler was involved.
The run catches the rejection of next and throws a different error: the final
recorded error is the second failure, not the first. -/
theorem c4_counterexample :
    (handleError [] (Err.value 2)
        { error := some (Err.value 1), errorHandled := false,
          response := none }).1.error = some (Err.value 2) ∧
    Err.value 1 ≠ Err.value 2 ∧
    (execute [MW.catchThenThrow 0 (Err.value 2), MW.throwPre 1 (Err.value 1)] []
        emptyCtx).ctx.error = some (Err.value 2) ∧
    (execute [MW.catchThenThrow 0 (Err.value 2), MW.throwPre 1 (Err.value 1)] []
        emptyCtx).trace =
      [Event.enter 0, Event.enter 1, Event.mwThrow 1 (Err.value 1),
       Event.mwThrow 0 (Err.value 2)] := by
  decide

/-- Claim C4, amended: on catching an error the error path records it in the
context unconditionally; when no handler replacement occurs (no registered
handler throws), the recorded error after the error path is exactly the
caught error, whatever was recorded before. -/
theorem c4_amended (hs : List EH) (e : Err) (ctx : Ctx)
    (h : ∀ hd ∈ hs, hd.throwsOwn = false) :
    (handleError hs e ctx).1.error = some e := by
  cases hs with
  | nil => rfl
  | cons hh ht =>
    rw [handleError_cons_ctx]
    rw [runHandlers_no_throw_error e (hh :: ht) 0 _ ?_]
    · intro x hx
      have hthrow := h x hx
      cases x with
      | pass => exact Or.inl rfl
      | handle r => exact Or.inr ⟨r, rfl⟩
      | throwErr e1 => simp [EH.throwsOwn] at hthrow
      | handleThenThrow e1 => simp [EH.throwsOwn] at hthrow

/-- Claim C4 witness at a concrete instance. -/
theorem c4_witness :
    (handleError [EH.pass, EH.handle (some 5)] (Err.value 9)
        { error := some (Err.value 1), errorHandled := false,
          response := none }).1.error = some (Err.value 9) :=
  c4_amended [EH.pass, EH.handle (some 5)] (Err.value 9) _ (by decide)

/-- Claim C5, counterexample: after the first handler throws, the second
handler is invoked with the original error as its first argument while the
error field of the context already holds the replacement, so handlers are not
invoked with the current value of the error field of the context. -/
theorem c5_counterexample :
    Event.handlerCall 1 (Err.value 1) (some (Err.value 2)) ∈
      (execute [MW.throwPre 0 (Err.value 1)]
        [EH.throwErr (Err.value 2), EH.pass] emptyCtx).trace ∧
    Err.value 1 ≠ Err.value 2 := by
  decide

/-- Claim C5, amended: every handler of one error-path pass receives the
error with which the pass was entered as its first argument, and when a
handler throws, the thrown value replaces the error field and the loop
continues to the next handler, which observes the replacement through the
context while still receiving the original error as its argument. -/
theorem c5_handler_arguments (hs : List EH) (e : Err) (ctx : Ctx) :
    (∀ ev ∈ (handleError hs e ctx).2.2, ∃ k oe, ev = Event.handlerCall k e oe) ∧
    (∀ k e1, hs[k]? = some (EH.throwErr e1) →
      (∃ oe, Event.handlerCall k e oe ∈ (handleError hs e ctx).2.2) →
      k + 1 < hs.length →
      Event.handlerCall (k + 1) e (some e1) ∈ (handleError hs e ctx).2.2) := by
  cases hs with
  | nil =>
    constructor
    · intro ev hev
      simp [handleError_nil] at hev
    · intro k e1 hk
      simp at hk
  | cons hh ht =>
    rw [handleError_cons_tr]
    constructor
    · exact fun ev hev => runHandlers_arg_eq e (hh :: ht) 0 _ ev hev
    · intro k e1 hk hex hlt
      have hcont := runHandlers_throw_continue e e1 (hh :: ht) 0 k _ hk
        (by simpa using hex) hlt
      simpa using hcont

/-- Claim C5 witness at a concrete instance. -/
theorem c5_witness :
    Event.handlerCall 1 (Err.value 7) (some (Err.value 8)) ∈
      (handleError [EH.throwErr (Err.value 8), EH.pass] (Err.value 7)
        emptyCtx).2.2 :=
  (c5_handler_arguments [EH.throwErr (Err.value 8), EH.pass] (Err.value 7)
      emptyCtx).2 0 (Err.value 8) (by decide) ⟨some (Err.value 7), by decide⟩
    (by decide)

/-- Claim C6, counterexample: a handler that sets errorHandled to true and
then throws does not stop further handler invocation, because the break check
sits after a normal return only; the next handler still runs. -/
theorem c6_counterexample :
    Event.handlerCall 1 (Err.value 1) (some (Err.value 2)) ∈
      (execute [MW.throwPre 0 (Err.value 1)]
        [EH.handleThenThrow (Err.value 2), EH.pass] emptyCtx).trace ∧
    (execute [MW.throwPre 0 (Err.value 1)]
        [EH.handleThenThrow (Err.value 2), EH.pass] emptyCtx).outcome =
      Except.ok () := by
  decide

/-- Claim C6, amended: handlers run in registration order, one at a time; a
handler that sets errorHandled to true and returns normally stops further
handler invocation; and after the loop, when errorHandled is still false, the
current error field is rethrown out of the error path. -/
theorem c6_handler_loop (hs : List EH) (e : Err) (ctx : Ctx) :
    ((handleError hs e ctx).2.2.length ≤ hs.length ∧
      ∀ m, m < (handleError hs e ctx).2.2.length →
        ∃ oe, (handleError hs e ctx).2.2[m]? = some (Event.handlerCall m e oe)) ∧
    (∀ k resp, hs[k]? = some (EH.handle resp) →
      (∃ oe, Event.handlerCall k e oe ∈ (handleError hs e ctx).2.2) →
      (handleError hs e ctx).2.2.length = k + 1) ∧
    (hs ≠ [] → (handleError hs e ctx).1.errorHandled = false →
      (handleError hs e ctx).2.1 =
        Except.error ((handleError hs e ctx).1.error.getD e)) := by
  refine ⟨?_, ?_, ?_⟩
  · cases hs with
    | nil => constructor <;> simp [handleError_nil]
    | cons hh ht =>
      rw [handleError_cons_tr]
      obtain ⟨hlen, hat⟩ := runHandlers_at e (hh :: ht) 0 _
      exact ⟨hlen, fun m hm => by simpa using hat m hm⟩
  · intro k resp hk hex
    cases hs with
    | nil => simp at hk
    | cons hh ht =>
      rw [handleError_cons_tr] at hex ⊢
      exact runHandlers_handle_stops e (hh :: ht) 0 k _ resp hk (by simpa using hex)
  · intro hne hnh
    cases hs with
    | nil => exact absurd rfl hne
    | cons hh ht =>
      rw [handleError_cons] at hnh ⊢
      by_cases hb : (runHandlers e (hh :: ht) 0 { ctx with error := some e }).1.errorHandled
      · rw [if_pos hb] at hnh
        simp [hb] at hnh
      · rw [if_neg hb]

/-- Claim C6 witness at a concrete instance. -/
theorem c6_witness :
    (handleError [EH.throwErr (Err.value 1), EH.handle none, EH.pass] (Err.value 0)
        emptyCtx).2.2.length = 2 :=
  (c6_handler_loop [EH.throwErr (Err.value 1), EH.handle none, EH.pass] (Err.value 0)
      emptyCtx).2.1 1 none (by decide) ⟨some (Err.value 1), by decide⟩

/-- Claim C8: composition yields an instance whose regular list and handler
list are the concatenations, in argument order, of the inputs, and
registration always builds a new value with the element appended, so a
composed instance, being determined by the input values at composition time,
is unaffected by later registrations on the inputs. -/
theorem c8_compose (its : List Interceptor) :
    (Interceptor.compose its).middleware = (its.map Interceptor.middleware).flatten ∧
    (Interceptor.compose its).errorHandlers =
      (its.map Interceptor.errorHandlers).flatten ∧
    (∀ it fn, (Interceptor.use it fn).middleware = it.middleware ++ [fn] ∧
      (Interceptor.use it fn).errorHandlers = it.errorHandlers) ∧
    (∀ it fn, (Interceptor.catchFn it fn).errorHandlers = it.errorHandlers ++ [fn] ∧
      (Interceptor.catchFn it fn).middleware = it.middleware) := by
  have huse : ∀ (l : List MW) (acc : Interceptor),
      l.foldl (fun a fn => a.use fn) acc =
        ⟨acc.middleware ++ l, acc.errorHandlers⟩ := by
    intro l
    induction l with
    | nil =>
      intro acc
      cases acc
      simp
    | cons x xs ih =>
      intro acc
      rw [List.foldl_cons, ih]
      simp [Interceptor.use]
  have hcatch : ∀ (l : List EH) (acc : Interceptor),
      l.foldl (fun a fn => a.catchFn fn) acc =
        ⟨acc.middleware, acc.errorHandlers ++ l⟩ := by
    intro l
    induction l with
    | nil =>
      intro acc
      cases acc
      simp
    | cons x xs ih =>
      intro acc
      rw [List.foldl_cons, ih]
      simp [Interceptor.catchFn]
  have hfold : ∀ (l : List Interceptor) (acc : Interceptor),
      l.foldl
        (fun acc it =>
          let acc1 := it.middleware.foldl (fun a fn => a.use fn) acc
          it.errorHandlers.foldl (fun a fn => a.catchFn fn) acc1) acc =
      ⟨acc.middleware ++ (l.map Interceptor.middleware).flatten,
       acc.errorHandlers ++ (l.map Interceptor.errorHandlers).flatten⟩ := by
    intro l
    induction l with
    | nil =>
      intro acc
      cases acc
      simp
    | cons x xs ih =>
      intro acc
      rw [List.foldl_cons]
      show xs.foldl _ (x.errorHandlers.foldl (fun a fn => a.catchFn fn)
        (x.middleware.foldl (fun a fn => a.use fn) acc)) = _
      rw [huse, hcatch, ih]
      simp [List.append_assoc]
  refine ⟨?_, ?_, ?_, ?_⟩
  · unfold Interceptor.compose
    rw [hfold]
    simp
  · unfold Interceptor.compose
    rw [hfold]
    simp
  · intro it fn
    exact ⟨rfl, rfl⟩
  · intro it fn
    exact ⟨rfl, rfl⟩

/-- Claim C9: for the request orchestration, when the pipeline finishes with
errorHandled true the request handle resolves with whatever the response
field holds, and when errorHandled is false and execute rejected, the handle
rejects with exactly the value execute rejected with. -/
theorem c9_request_outcome (mws : List MW) (hs : List EH) (t : Transport) :
    ((executeWith mws hs (echoTerminal t) initCtx).ctx.errorHandled = true →
      (executeRequest mws hs t initCtx).1 =
        Except.ok (executeWith mws hs (echoTerminal t) initCtx).ctx.response) ∧
    ((executeWith mws hs (echoTerminal t) initCtx).ctx.errorHandled = false →
      ∀ e, (executeWith mws hs (echoTerminal t) initCtx).outcome = Except.error e →
        (executeRequest mws hs t initCtx).1 = Except.error e) := by
  constructor
  · intro hh
    unfold executeRequest
    cases ho : (executeWith mws hs (echoTerminal t) initCtx).outcome with
    | ok u =>
      simp [ho, hh]
    | error e =>
      have hsome : (executeWith mws hs (echoTerminal t) initCtx).ctx.error = some e :=
        execute_error_ctx (mws ++ [echoTerminal t]) hs initCtx e ho
      unfold requestCatch
      simp [ho, hsome, hh]
  · intro hh e ho
    have hsome : (executeWith mws hs (echoTerminal t) initCtx).ctx.error = some e :=
      execute_error_ctx (mws ++ [echoTerminal t]) hs initCtx e ho
    unfold executeRequest requestCatch
    simp [ho, hsome, hh]

/-- Claim C9 witness at a concrete instance. -/
theorem c9_witness :
    (executeRequest [MW.throwPre 0 (Err.value 3)] [] (Transport.ok 42) initCtx).1 =
      Except.error (Err.value 3) :=
  (c9_request_outcome [MW.throwPre 0 (Err.value 3)] [] (Transport.ok 42)).2
    (by decide) (Err.value 3) (by decide)

end WxEcho
